import Mathlib

/-!
Verification development for the pybfbc2stats client library.

The Python sources are shallowly embedded: Python `bytes` values become
`List Nat` (one entry per byte, each < 256 on real inputs), Python `str`
values are represented by their UTF-8 byte sequences (UTF-8 encoding is
injective, so `str` equality coincides with byte equality), `dict`s become
insertion-ordered association lists (Python 3.7+ dicts preserve insertion
order), and code that can raise becomes `Except`/`Option`-valued.
-/

namespace Bfbc

/-- Python `bytes` (and, via UTF-8, Python `str`): a list of byte values. -/
abbrev Bytes := List Nat

/-- UTF-8 bytes of an ASCII Lean string literal; used to write the byte-string
constants of the source readably.  Only used with pure-ASCII literals, where
the code point equals the byte value. -/
def ascii (s : String) : Bytes := s.data.map Char.toNat

/-- Embedding of Python `bytes.split(sep)` for a single separator byte `c`:
always returns at least one (possibly empty) piece. -/
def splitOnByte (c : Nat) : Bytes → List Bytes
  | [] => [[]]
  | b :: tl =>
    let rest := splitOnByte c tl
    if b = c then [] :: rest
    else
      match rest with
      | [] => [[b]]
      | piece :: more => (b :: piece) :: more

/-- Embedding of Python `sep.join(pieces)` for a single separator byte. -/
def joinWithByte (c : Nat) : List Bytes → Bytes
  | [] => []
  | [x] => x
  | x :: tl => x ++ c :: joinWithByte c tl

theorem splitOnByte_ne_nil (c : Nat) (l : Bytes) : splitOnByte c l ≠ [] := by
  cases l with
  | nil => simp [splitOnByte]
  | cons b tl =>
    simp only [splitOnByte]
    split
    · simp
    · split <;> simp

theorem splitOnByte_append_sep (c : Nat) (a b : Bytes) :
    splitOnByte c (a ++ c :: b) = splitOnByte c a ++ splitOnByte c b := by
  induction a with
  | nil =>
    simp [splitOnByte]
  | cons x tl ih =>
    by_cases hx : x = c
    · subst hx
      simp [splitOnByte, ih]
    · rcases htl : splitOnByte c tl with _ | ⟨piece, more⟩
      · exact absurd htl (splitOnByte_ne_nil c tl)
      · simp [splitOnByte, hx, ih, htl]

theorem splitOnByte_of_not_mem {c : Nat} {l : Bytes} (h : c ∉ l) :
    splitOnByte c l = [l] := by
  induction l with
  | nil => rfl
  | cons b tl ih =>
    simp only [List.mem_cons, not_or] at h
    simp only [splitOnByte, ih h.2]
    simp [Ne.symm h.1]

theorem splitOnByte_joinWithByte (c : Nat) (pieces : List Bytes)
    (hne : pieces ≠ []) (hfree : ∀ p ∈ pieces, c ∉ p) :
    splitOnByte c (joinWithByte c pieces) = pieces := by
  induction pieces with
  | nil => exact absurd rfl hne
  | cons p tl ih =>
    cases tl with
    | nil =>
      simpa [joinWithByte] using splitOnByte_of_not_mem (hfree p (by simp))
    | cons q tl₂ =>
      have hjoin : joinWithByte c (p :: q :: tl₂) = p ++ c :: joinWithByte c (q :: tl₂) := rfl
      rw [hjoin, splitOnByte_append_sep, splitOnByte_of_not_mem (hfree p (by simp))]
      rw [ih (by simp) (fun r hr => hfree r (by simp [hr]))]
      rfl

/-- Embedding of Python `bytes.partition(b'=')`, keeping only the part before
the first `=` and the part after it (the middle component is determined). -/
def partitionEq : Bytes → Bytes × Bytes
  | [] => ([], [])
  | b :: tl =>
    if b = 61 then ([], tl)
    else
      let kv := partitionEq tl
      (b :: kv.1, kv.2)

/-- Fuel-driven digit expansion for the decimal representation (`str(n)` in
Python); the fuel only serves structural recursion and any fuel ≥ n yields
the digits of `n`. -/
def natToDecAux : Nat → Nat → Bytes
  | 0, _ => []
  | fuel + 1, n => if n = 0 then [] else natToDecAux fuel (n / 10) ++ [n % 10 + 48]

/-- Embedding of Python `str(n)` for a natural number. -/
def natToDec (n : Nat) : Bytes := if n = 0 then [48] else natToDecAux n n

/-- Embedding of Python `str(n)` for an integer. -/
def intToDec (n : Int) : Bytes :=
  if n < 0 then 45 :: natToDec n.natAbs else natToDec n.toNat

def isDecDigit (c : Nat) : Bool := decide (48 ≤ c) && decide (c ≤ 57)

def decToNat (b : Bytes) : Nat := b.foldl (fun a d => a * 10 + (d - 48)) 0

/-- Embedding of Python `int(s)` on a decimal string: optional sign followed by
one or more decimal digits.  (Python additionally strips surrounding
whitespace and accepts underscore group separators; no input in this
development uses either.) -/
def pyInt (b : Bytes) : Option Int :=
  match b with
  | [] => none
  | c :: tl =>
    if c = 43 then if tl ≠ [] ∧ tl.all isDecDigit then some (decToNat tl : Int) else none
    else if c = 45 then
      if tl ≠ [] ∧ tl.all isDecDigit then some (-(decToNat tl : Int)) else none
    else if (c :: tl).all isDecDigit then some (decToNat (c :: tl) : Int) else none

theorem natToDecAux_zero (fuel : Nat) : natToDecAux fuel 0 = [] := by
  cases fuel <;> simp [natToDecAux]

theorem natToDecAux_congr :
    ∀ n f₁ f₂, n ≤ f₁ → n ≤ f₂ → natToDecAux f₁ n = natToDecAux f₂ n := by
  intro n
  induction n using Nat.strong_induction_on with
  | _ n ih =>
    intro f₁ f₂ h₁ h₂
    by_cases hn : n = 0
    · subst hn
      rw [natToDecAux_zero, natToDecAux_zero]
    · obtain ⟨a, rfl⟩ := Nat.exists_eq_succ_of_ne_zero (by omega : f₁ ≠ 0)
      obtain ⟨b, rfl⟩ := Nat.exists_eq_succ_of_ne_zero (by omega : f₂ ≠ 0)
      simp only [natToDecAux, hn, if_false]
      have hdiv : n / 10 < n := Nat.div_lt_self (by omega) (by norm_num)
      rw [ih (n / 10) hdiv a b (by omega) (by omega)]

theorem decToNat_natToDecAux (n : Nat) :
    ∀ f a, n ≤ f → (natToDecAux f n).foldl (fun x d => x * 10 + (d - 48)) a =
      a * 10 ^ (natToDecAux f n).length + n := by
  induction n using Nat.strong_induction_on with
  | _ n ih =>
    intro f a hf
    by_cases hn : n = 0
    · subst hn
      simp [natToDecAux_zero]
    · obtain ⟨g, rfl⟩ := Nat.exists_eq_succ_of_ne_zero (by omega : f ≠ 0)
      simp only [natToDecAux, hn, if_false]
      have hdiv : n / 10 < n := Nat.div_lt_self (by omega) (by norm_num)
      rw [List.foldl_append, ih (n / 10) hdiv g a (by omega)]
      simp only [List.foldl_cons, List.foldl_nil, List.length_append, List.length_cons,
        List.length_nil]
      have hd : n % 10 + 48 - 48 = n % 10 := by omega
      rw [hd, pow_succ]
      have := Nat.div_add_mod n 10
      ring_nf
      omega

theorem decToNat_natToDec (n : Nat) : decToNat (natToDec n) = n := by
  by_cases h : n = 0
  · simp [h, natToDec, decToNat]
  · simp only [natToDec, h, if_false, decToNat]
    simpa using decToNat_natToDecAux n n 0 le_rfl

theorem natToDecAux_digits (n : Nat) :
    ∀ f, n ≤ f → ∀ d ∈ natToDecAux f n, isDecDigit d = true := by
  induction n using Nat.strong_induction_on with
  | _ n ih =>
    intro f hf d hd
    by_cases hn : n = 0
    · subst hn
      rw [natToDecAux_zero] at hd
      simp at hd
    · obtain ⟨g, rfl⟩ := Nat.exists_eq_succ_of_ne_zero (by omega : f ≠ 0)
      simp only [natToDecAux, hn, if_false] at hd
      rcases List.mem_append.mp hd with h | h
      · exact ih (n / 10) (Nat.div_lt_self (by omega) (by norm_num)) g (by omega) d h
      · rw [List.mem_singleton] at h
        have : n % 10 < 10 := Nat.mod_lt _ (by norm_num)
        simp only [isDecDigit, Bool.and_eq_true, decide_eq_true_eq]
        omega

theorem natToDec_digits (n : Nat) : ∀ d ∈ natToDec n, isDecDigit d = true := by
  by_cases h : n = 0
  · simp [h, natToDec, isDecDigit]
  · simpa [natToDec, h] using natToDecAux_digits n n le_rfl

theorem natToDec_ne_nil (n : Nat) : natToDec n ≠ [] := by
  by_cases h : n = 0
  · simp [h, natToDec]
  · obtain ⟨m, rfl⟩ := Nat.exists_eq_succ_of_ne_zero h
    simp only [natToDec, h, if_false, natToDecAux]
    simp

theorem pyInt_natToDec (n : Nat) : pyInt (natToDec n) = some (n : Int) := by
  have hdig := natToDec_digits n
  have hne := natToDec_ne_nil n
  have hall : (natToDec n).all isDecDigit = true := List.all_eq_true.mpr hdig
  rcases hhead : natToDec n with _ | ⟨c, tl⟩
  · exact absurd hhead hne
  · have hc : isDecDigit c = true := hdig c (by rw [hhead]; simp)
    have hc48 : 48 ≤ c := by
      simp only [isDecDigit, Bool.and_eq_true, decide_eq_true_eq] at hc
      exact hc.1
    simp only [pyInt]
    rw [if_neg (by omega), if_neg (by omega), if_pos (hhead ▸ hall), ← hhead, decToNat_natToDec]

/-! ## Payload (src/pybfbc2stats/payload.py)

The old-style `Payload` stores a flat `Dict[str, bytes]`; we embed it as an
insertion-ordered association list from UTF-8 key bytes to value bytes. -/

/-- The `Payload.data` dictionary: insertion-ordered, unique keys. -/
abbrev PayloadData := List (Bytes × Bytes)

/-- `Payload.destruct_path`: split a dotted path on `.` (byte 46). -/
def destructPath (path : Bytes) : List Bytes := splitOnByte 46 path

/-- `Payload.build_path`: join path elements with `.` (byte 46). -/
def buildPath (parts : List Bytes) : Bytes := joinWithByte 46 parts

/-- Python `dict.get`: first binding of the key, if any. -/
def lookupKey : PayloadData → Bytes → Option Bytes
  | [], _ => none
  | e :: tl, k => if e.1 = k then some e.2 else lookupKey tl k

/-- Python `dict` item assignment: overwrite in place, else append. -/
def dictAssign (d : PayloadData) (k v : Bytes) : PayloadData :=
  if (lookupKey d k).isSome then d.map fun e => if e.1 = k then (k, v) else e
  else d ++ [(k, v)]

/-- `Payload.filter_by_path`: all items whose destructed path starts with the
destructed `path`. -/
def filterByPath (data : PayloadData) (path : Bytes) : PayloadData :=
  data.filter fun e => (destructPath path).isPrefixOf (destructPath e.1)

/-- `Payload.remove`: drop every item matched by `filter_by_path`. -/
def removeKey (data : PayloadData) (path : Bytes) : PayloadData :=
  data.filter fun e => !(destructPath path).isPrefixOf (destructPath e.1)

/-- The values acceptable to `Payload.set`: scalars (bytes, str, int, None)
and nested dicts/lists.  Python `str` values are carried as their UTF-8
bytes; `str(value)` on them is the identity. -/
inductive PValue where
  | bytes (b : Bytes)
  | str (s : Bytes)
  | int (n : Int)
  | null
  | list (xs : List PValue)
  | dict (entries : List (Bytes × PValue))
deriving Repr

mutual

/-- Embedding of `Payload.set(key, value, *args)`.  The base-level call first
removes any data under the path; dict values recurse per entry; list values
recurse per index and then set `key.[]` (via a further `set` call, inlined
here at its scalar branch); bytes are stored verbatim; `None` stores an empty
value; any other scalar stores `str(value)`. -/
def setVal (data : PayloadData) (args : List Bytes) (key : Bytes) : PValue → PayloadData
  | .dict entries =>
    let d₀ := if args = [] then removeKey data (buildPath (args ++ [key])) else data
    setEntries d₀ (args ++ [key]) entries
  | .list xs =>
    let d₀ := if args = [] then removeKey data (buildPath (args ++ [key])) else data
    let d₁ := setItems d₀ (args ++ [key]) 0 xs
    let lpath := buildPath (args ++ [key ++ [46, 91, 93]])
    let d₂ := if args = [] then removeKey d₁ lpath else d₁
    dictAssign d₂ lpath (natToDec xs.length)
  | .bytes b =>
    let d₀ := if args = [] then removeKey data (buildPath (args ++ [key])) else data
    dictAssign d₀ (buildPath (args ++ [key])) b
  | .null =>
    let d₀ := if args = [] then removeKey data (buildPath (args ++ [key])) else data
    dictAssign d₀ (buildPath (args ++ [key])) []
  | .str s =>
    let d₀ := if args = [] then removeKey data (buildPath (args ++ [key])) else data
    dictAssign d₀ (buildPath (args ++ [key])) s
  | .int n =>
    let d₀ := if args = [] then removeKey data (buildPath (args ++ [key])) else data
    dictAssign d₀ (buildPath (args ++ [key])) (intToDec n)

/-- The dict branch of `Payload.set`: one recursive `set` per entry, in order. -/
def setEntries (data : PayloadData) (args : List Bytes) : List (Bytes × PValue) → PayloadData
  | [] => data
  | (k, v) :: tl => setEntries (setVal data args k v) args tl

/-- The list branch of `Payload.set`: one recursive `set` per index, in order,
with `str(index)` as the key. -/
def setItems (data : PayloadData) (args : List Bytes) (i : Nat) : List PValue → PayloadData
  | [] => data
  | v :: tl => setItems (setVal data args (natToDec i) v) args (i + 1) tl

end

/-- Embedding of `Payload.__init__` / `Payload.update` from keyword scalars
and structs: repeated base-level `set`. -/
def payloadOfEntries (entries : List (Bytes × PValue)) : PayloadData :=
  entries.foldl (fun d e => setVal d [] e.1 e.2) []

/-- Embedding of `Payload.from_bytes` (no parse map): split on newlines,
partition each line at the first `=`, and `set` the raw value bytes. -/
def fromBytes (data : Bytes) : PayloadData :=
  (splitOnByte 10 data).foldl
    (fun d line => setVal d [] (partitionEq line).1 (.bytes (partitionEq line).2)) []

/-- Embedding of `Payload.__bytes__`: `key=value` lines joined by newlines. -/
def payloadToBytes (data : PayloadData) : Bytes :=
  joinWithByte 10 (data.map fun e => e.1 ++ 61 :: e.2)

/-- Embedding of `Payload.__eq__` (Python dict equality: order-insensitive,
assuming the unique-keys invariant Python dicts maintain). -/
def payloadBeq (a b : PayloadData) : Bool :=
  decide (a.length = b.length) && a.all fun e => decide (lookupKey b e.1 = some e.2)

/-! ### Helper lemmas about the payload dictionary operations -/

theorem partitionEq_append {k : Bytes} (v : Bytes) (h : 61 ∉ k) :
    partitionEq (k ++ 61 :: v) = (k, v) := by
  induction k with
  | nil => simp [partitionEq]
  | cons b tl ih =>
    simp only [List.mem_cons, not_or] at h
    have hb : ¬b = 61 := fun hh => h.1 hh.symm
    simp [partitionEq, hb, ih h.2]

theorem destructPath_single {k : Bytes} (h : 46 ∉ k) : destructPath k = [k] :=
  splitOnByte_of_not_mem h

theorem lookupKey_eq_none {d : PayloadData} {k : Bytes} (h : ∀ e ∈ d, e.1 ≠ k) :
    lookupKey d k = none := by
  induction d with
  | nil => rfl
  | cons e tl ih =>
    simp only [lookupKey, h e (by simp), if_false]
    exact ih fun x hx => h x (by simp [hx])

theorem lookupKey_head_self (k v : Bytes) (tl : PayloadData) :
    lookupKey ((k, v) :: tl) k = some v := by
  simp [lookupKey]

theorem dictAssign_of_fresh {d : PayloadData} {k : Bytes} (v : Bytes)
    (h : ∀ e ∈ d, e.1 ≠ k) : dictAssign d k v = d ++ [(k, v)] := by
  simp [dictAssign, lookupKey_eq_none h]

theorem removeKey_of_ne {d : PayloadData} {k : Bytes} (hk : 46 ∉ k)
    (hd : ∀ e ∈ d, 46 ∉ e.1 ∧ e.1 ≠ k) : removeKey d k = d := by
  refine List.filter_eq_self.mpr fun e he => ?_
  rw [destructPath_single hk, destructPath_single (hd e he).1]
  have hne : ¬(k == e.1) = true := by
    simp only [beq_iff_eq]
    exact fun hkk => (hd e he).2 hkk.symm
  simp [List.isPrefixOf, hne]

theorem setVal_scalar_fresh {d : PayloadData} {k v : Bytes} (hk : 46 ∉ k)
    (hd : ∀ e ∈ d, 46 ∉ e.1 ∧ e.1 ≠ k) :
    setVal d [] k (.bytes v) = d ++ [(k, v)] := by
  have h1 : setVal d [] k (.bytes v) =
      dictAssign (removeKey d (buildPath [k])) (buildPath [k]) v := by
    simp only [setVal, List.nil_append, if_pos]
  have h2 : buildPath [k] = k := rfl
  rw [h1, h2, removeKey_of_ne hk hd, dictAssign_of_fresh v fun e he => (hd e he).2]

theorem fold_set_scalars (entries : List (Bytes × Bytes)) :
    ∀ acc : PayloadData, (∀ e ∈ acc, 46 ∉ e.1) →
      (∀ a ∈ acc, ∀ b ∈ entries, a.1 ≠ b.1) →
      entries.Pairwise (fun a b => a.1 ≠ b.1) →
      (∀ e ∈ entries, 46 ∉ e.1) →
      List.foldl (fun d e => setVal d [] e.1 (PValue.bytes e.2)) acc entries = acc ++ entries := by
  induction entries with
  | nil => simp
  | cons e tl ih =>
    intro acc hacc hsep hpair hdots
    have hstep : setVal acc [] e.1 (PValue.bytes e.2) = acc ++ [e] := by
      rw [setVal_scalar_fresh (hdots e (by simp))
        (fun a ha => ⟨hacc a ha, hsep a ha e (by simp)⟩)]
    simp only [List.foldl_cons, hstep]
    rw [ih (acc ++ [e])
      (by
        intro x hx
        rcases List.mem_append.mp hx with h | h
        · exact hacc x h
        · rw [List.mem_singleton] at h
          rw [h]
          exact hdots e (by simp))
      (by
        intro a ha b hb
        rcases List.mem_append.mp ha with h | h
        · exact hsep a h b (by simp [hb])
        · rw [List.mem_singleton] at h
          rw [h]
          exact (List.pairwise_cons.mp hpair).1 b hb)
      (List.pairwise_cons.mp hpair).2
      (fun x hx => hdots x (by simp [hx]))]
    simp

theorem lookupKey_self_of_pairwise {d : PayloadData}
    (hpair : d.Pairwise (fun a b => a.1 ≠ b.1)) :
    ∀ e ∈ d, lookupKey d e.1 = some e.2 := by
  induction d with
  | nil => simp
  | cons x tl ih =>
    intro e he
    rcases List.mem_cons.mp he with h | h
    · subst h
      simp [lookupKey]
    · have hne : x.1 ≠ e.1 := (List.pairwise_cons.mp hpair).1 e h
      simp only [lookupKey, hne, if_false]
      exact ih (List.pairwise_cons.mp hpair).2 e h

theorem payloadBeq_refl_of_pairwise {d : PayloadData}
    (hpair : d.Pairwise (fun a b => a.1 ≠ b.1)) : payloadBeq d d = true := by
  unfold payloadBeq
  rw [Bool.and_eq_true]
  refine ⟨by simp, ?_⟩
  rw [List.all_eq_true]
  intro e he
  simp [lookupKey_self_of_pairwise hpair e he]

theorem removeKey_eq_self {d : PayloadData} {p : Bytes}
    (h : ∀ e ∈ d, (destructPath p).isPrefixOf (destructPath e.1) = false) :
    removeKey d p = d := by
  refine List.filter_eq_self.mpr fun e he => ?_
  rw [h e he]
  rfl

theorem isPrefixOf_self (l : List Bytes) : l.isPrefixOf l = true := by
  induction l with
  | nil => rfl
  | cons c tl ih => simp [List.isPrefixOf, ih]

theorem ne_of_prefix_false {a b : Bytes}
    (h : (destructPath a).isPrefixOf (destructPath b) = false) : a ≠ b := by
  intro hab
  rw [hab, isPrefixOf_self] at h
  cases h

/-- A base-level scalar `set` on a fresh (possibly dotted) key whose path is
not a prefix of any stored path just appends the entry. -/
theorem setVal_flat_fresh {d : PayloadData} {k v : Bytes}
    (hd : ∀ e ∈ d, (destructPath k).isPrefixOf (destructPath e.1) = false) :
    setVal d [] k (.bytes v) = d ++ [(k, v)] := by
  have h1 : setVal d [] k (.bytes v) =
      dictAssign (removeKey d (buildPath [k])) (buildPath [k]) v := by
    simp only [setVal, List.nil_append, if_pos]
  have h2 : buildPath [k] = k := rfl
  rw [h1, h2, removeKey_eq_self hd,
    dictAssign_of_fresh v fun e he => (ne_of_prefix_false (hd e he)).symm]

/-- Folding base-level scalar `set`s over entries with pairwise
path-prefix-free keys appends them in order. -/
theorem fold_set_flat (entries : List (Bytes × Bytes)) :
    ∀ acc : PayloadData,
      (∀ a ∈ acc, ∀ b ∈ entries,
        (destructPath b.1).isPrefixOf (destructPath a.1) = false) →
      entries.Pairwise (fun a b =>
        (destructPath a.1).isPrefixOf (destructPath b.1) = false ∧
        (destructPath b.1).isPrefixOf (destructPath a.1) = false) →
      List.foldl (fun d e => setVal d [] e.1 (PValue.bytes e.2)) acc entries =
        acc ++ entries := by
  induction entries with
  | nil => simp
  | cons e tl ih =>
    intro acc hsep hpair
    have hstep : setVal acc [] e.1 (PValue.bytes e.2) = acc ++ [e] :=
      setVal_flat_fresh fun a ha => hsep a ha e (by simp)
    simp only [List.foldl_cons, hstep]
    rw [ih (acc ++ [e])
      (by
        intro a ha b hb
        rcases List.mem_append.mp ha with h | h
        · exact hsep a h b (by simp [hb])
        · rw [List.mem_singleton] at h
          rw [h]
          exact ((List.pairwise_cons.mp hpair).1 b hb).2)
      (List.pairwise_cons.mp hpair).2]
    simp

/-! ### Claim C1 -/

/-- C1 (counterexample): the round-trip law `Payload.from_bytes(bytes(p)) == p`
fails, as stated, on the payload tree `Payload(a=b'x\ny')` whose single leaf is
the scalar byte string `b'x\ny'`: serialization yields `b'a=x\ny'`, which parses
back as the two entries `a=x` and `y=`. -/
theorem payload_roundtrip_counterexample :
    payloadBeq
      (fromBytes (payloadToBytes (payloadOfEntries [(ascii "a", .bytes [120, 10, 121])])))
      (payloadOfEntries [(ascii "a", .bytes [120, 10, 121])]) = false := by decide

/-- C1 (amended): `Payload.from_bytes(bytes(p)) == p` holds for every
non-empty payload whose stored (possibly dotted) keys are pairwise free of
path-prefix relations and contain no `=` or newline byte, with leaf values
free of newline bytes.  Every tree with scalar leaves stores such keys
(leaf paths of a tree never prefix one another), so nested trees are
covered — the final conjunct exhibits a dict-of-dict plus scalar-list tree
round-tripping — and only a newline inside a leaf value (the
counterexample) or the empty payload breaks the law. -/
theorem payload_scalar_leaf_roundtrip (d : PayloadData)
    (hne : d ≠ [])
    (hpair : d.Pairwise (fun a b =>
      (destructPath a.1).isPrefixOf (destructPath b.1) = false ∧
      (destructPath b.1).isPrefixOf (destructPath a.1) = false))
    (hkeys : ∀ e ∈ d, 61 ∉ e.1 ∧ 10 ∉ e.1)
    (hvals : ∀ e ∈ d, 10 ∉ e.2) :
    fromBytes (payloadToBytes d) = d ∧
      payloadBeq (fromBytes (payloadToBytes d)) d = true ∧
      fromBytes (payloadToBytes (payloadOfEntries
        [(ascii "userInfo", .dict [(ascii "namespace", .str (ascii "PS3")),
            (ascii "userId", .int 7)]),
          (ascii "keys", .list [.bytes (ascii "x"), .bytes (ascii "y")])])) =
        payloadOfEntries
          [(ascii "userInfo", .dict [(ascii "namespace", .str (ascii "PS3")),
              (ascii "userId", .int 7)]),
            (ascii "keys", .list [.bytes (ascii "x"), .bytes (ascii "y")])] ∧
      payloadBeq
        (fromBytes (payloadToBytes (payloadOfEntries
          [(ascii "userInfo", .dict [(ascii "namespace", .str (ascii "PS3")),
              (ascii "userId", .int 7)]),
            (ascii "keys", .list [.bytes (ascii "x"), .bytes (ascii "y")])])))
        (payloadOfEntries
          [(ascii "userInfo", .dict [(ascii "namespace", .str (ascii "PS3")),
              (ascii "userId", .int 7)]),
            (ascii "keys", .list [.bytes (ascii "x"), .bytes (ascii "y")])]) = true := by
  have hsplit : splitOnByte 10 (payloadToBytes d) =
      d.map fun e => e.1 ++ 61 :: e.2 := by
    refine splitOnByte_joinWithByte 10 _ (by simpa using hne) ?_
    intro p hp
    rcases List.mem_map.mp hp with ⟨e, he, rfl⟩
    intro hmem
    rcases List.mem_append.mp hmem with h | h
    · exact (hkeys e he).2 h
    · rcases List.mem_cons.mp h with h | h
      · omega
      · exact hvals e he h
  have heq : fromBytes (payloadToBytes d) = d := by
    unfold fromBytes
    rw [hsplit, List.foldl_map]
    have hext := List.foldl_ext
      (fun (acc : PayloadData) (e : Bytes × Bytes) =>
        setVal acc [] (partitionEq (e.1 ++ 61 :: e.2)).1
          (PValue.bytes (partitionEq (e.1 ++ 61 :: e.2)).2))
      (fun (acc : PayloadData) (e : Bytes × Bytes) => setVal acc [] e.1 (PValue.bytes e.2))
      ([] : PayloadData) (l := d)
      (by
        intro acc e he
        dsimp only
        rw [partitionEq_append e.2 (hkeys e he).1])
    rw [hext]
    exact fold_set_flat d [] (by simp) hpair
  have hdistinct : d.Pairwise fun a b => a.1 ≠ b.1 :=
    hpair.imp fun h => ne_of_prefix_false h.1
  exact ⟨heq, by rw [heq]; exact payloadBeq_refl_of_pairwise hdistinct, by decide, by decide⟩

/-- C1 (witness): the amended round trip at a concrete payload mixing a plain
key with a dotted path key. -/
theorem payload_scalar_leaf_roundtrip_witness :
    fromBytes (payloadToBytes [(ascii "TXN", ascii "Login"),
        (ascii "userInfo.userId", ascii "7")]) =
      [(ascii "TXN", ascii "Login"), (ascii "userInfo.userId", ascii "7")] :=
  (payload_scalar_leaf_roundtrip
    [(ascii "TXN", ascii "Login"), (ascii "userInfo.userId", ascii "7")]
    (by decide) (by decide) (by decide) (by decide)).1

/-! ## Packet (src/pybfbc2stats/packet.py) -/

/-- A wire packet: header bytes and body bytes. -/
structure Packet where
  header : Bytes
  body : Bytes
deriving Repr, DecidableEq

/-- `HEADER_LENGTH` from constants.py. -/
def HEADER_LENGTH : Nat := 12

/-- `FRAGMENT_SIZE` from constants.py. -/
def FRAGMENT_SIZE : Nat := 8096

/-- `VALID_HEADER_TYPES_FESL` from constants.py. -/
def VALID_HEADER_TYPES_FESL : List Bytes :=
  [ascii "acct", ascii "fsys", ascii "rank", ascii "recp"]

/-- `VALID_HEADER_TYPES_THEATER` from constants.py. -/
def VALID_HEADER_TYPES_THEATER : List Bytes :=
  [ascii "CONN", ascii "USER", ascii "LLST", ascii "LDAT", ascii "GLST", ascii "GDAT",
   ascii "GDET", ascii "PDAT", ascii "PING"]

/-- `VALID_HEADER_ERROR_INDICATORS` from constants.py. -/
def VALID_HEADER_ERROR_INDICATORS : List Bytes :=
  [ascii "ngam", ascii "nrom", ascii "bpar", ascii "ntfn"]

/-- `FeslTransmissionType` from constants.py. -/
inductive FeslTT where
  | ping
  | singlePacketResponse
  | multiPacketResponse
  | singlePacketRequest
  | multiPacketRequest
deriving Repr, DecidableEq

/-- `TheaterTransmissionType` from constants.py. -/
inductive TheaterTT where
  | request
  | okResponse
  | errorResponse
deriving Repr, DecidableEq

/-- `Packet.bytes2int`: big-endian `int.from_bytes`. -/
def bytes2int (b : Bytes) : Nat := b.foldl (fun a x => a * 256 + x) 0

/-- `Packet.int2bytes`: big-endian `int.to_bytes(i, length)`.  Python raises
`OverflowError` when `i ≥ 256^length` (or `i < 0`); the embedding truncates
instead, and every theorem that relies on this function carries the in-range
hypothesis under which the two behaviours agree. -/
def int2bytes (i : Nat) : Nat → Bytes
  | 0 => []
  | k + 1 => int2bytes (i / 256) k ++ [i % 256]

/-- Python slice assignment `arr[i:j] = r` on a bytearray (for `i ≤ j`). -/
def setSlice (l : Bytes) (i j : Nat) (r : Bytes) : Bytes :=
  l.take i ++ r ++ l.drop j

/-- Python slicing `b[i:j]` (for `i ≤ j`). -/
def getSlice (l : Bytes) (i j : Nat) : Bytes := (l.drop i).take (j - i)

/-- `Packet.indicated_length`: the 32-bit big-endian value in header
bytes 8–11. -/
def indicatedLength (p : Packet) : Nat := bytes2int (getSlice p.header 8 12)

/-- `Packet.set_length_indicators`: write `len(header) + len(body)` into
header bytes 8–11. -/
def setLengthIndicators (p : Packet) : Packet :=
  { p with header := setSlice p.header 8 12 (int2bytes (p.header.length + p.body.length) 4) }

/-- `Packet.get_data`: the body without a trailing `\x00` byte, if any. -/
def getData (p : Packet) : Bytes :=
  match p.body.getLast? with
  | some 0 => p.body.dropLast
  | _ => p.body

/-- `Packet.get_data_lines`. -/
def getDataLines (p : Packet) : List Bytes := splitOnByte 10 (getData p)

/-- `Packet.validate_header` (base): 12 header bytes and a positive length
indicator; `true` means the Python method does not raise. -/
def validateHeaderBase (p : Packet) : Bool :=
  decide (p.header.length = HEADER_LENGTH) && decide (0 < bytes2int (getSlice p.header 8 12))

/-- `Packet.validate_body`: the indicated length matches the actual packet
length; `true` means the Python method does not raise. -/
def validateBody (p : Packet) : Bool :=
  decide (indicatedLength p = p.header.length + p.body.length)

/-- `FeslPacket.set_tid`: write the 24-bit big-endian transaction id into
header bytes 5–7. -/
def feslSetTid (p : Packet) (tid : Nat) : Packet :=
  { p with header := setSlice p.header 5 8 (int2bytes tid 3) }

/-- `FeslPacket.get_tid`: read the 24-bit big-endian transaction id from
header bytes 5–7. -/
def feslGetTid (p : Packet) : Nat := bytes2int (getSlice p.header 5 8)

/-- `FeslPacket.set_transmission_type`: write the discriminator byte 4. -/
def feslSetTransmissionType (p : Packet) (tt : FeslTT) : Packet :=
  { p with header :=
      match tt with
      | .ping => setSlice p.header 4 5 [0x00]
      | .singlePacketResponse => setSlice p.header 4 5 [0x80]
      | .multiPacketResponse => setSlice p.header 4 5 [0xb0]
      | .singlePacketRequest => setSlice p.header 4 5 [0xc0]
      | .multiPacketRequest => setSlice p.header 4 5 [0xf0] }

/-- `FeslPacket.get_transmission_type`: decode header byte 4; `none` embeds
the `Error('Unknown packet transmission type')` raise. -/
def feslGetTransmissionType (p : Packet) : Option FeslTT :=
  let b := getSlice p.header 4 5
  if b = [0x00] then some .ping
  else if b = [0x80] then some .singlePacketResponse
  else if b = [0xb0] then some .multiPacketResponse
  else if b = [0xc0] then some .singlePacketRequest
  else if b = [0xf0] then some .multiPacketRequest
  else none

/-- `FeslPacket.validate_header`: base checks plus FESL type tag and a known
discriminator byte. -/
def feslValidateHeader (p : Packet) : Bool :=
  validateHeaderBase p &&
    (decide (p.header.take 4 ∈ VALID_HEADER_TYPES_FESL) &&
      decide (p.header.getD 4 0 ∈ [0, 128, 176, 192, 240]))

/-- `TheaterPacket.set_tid`: strip the 2-byte body tail, append
`\nTID=<tid>\n\x00`. -/
def theaterSetTid (p : Packet) (tid : Nat) : Packet :=
  { p with body := p.body.take (p.body.length - 2) ++
      10 :: (ascii "TID=" ++ natToDec tid ++ [10, 0]) }

/-- Python `bytes.isalnum` (ASCII letters and digits, non-empty). -/
def pyIsAlnum (b : Bytes) : Bool :=
  !b.isEmpty && b.all fun c =>
    isDecDigit c || (decide (65 ≤ c) && decide (c ≤ 90)) ||
      (decide (97 ≤ c) && decide (c ≤ 122))

/-- Python `needle in hay` on bytes: contiguous subsequence test. -/
def containsSeq (needle : Bytes) : Bytes → Bool
  | [] => needle.isEmpty
  | b :: tl => needle.isPrefixOf (b :: tl) || containsSeq needle tl

/-- `TheaterPacket.get_tid`: scan the body lines for the first one containing
`TID=`, drop 4 bytes, return 0 unless the rest is alphanumeric, else `int()`
it (`.error` embeds the `ValueError` Python would raise on an alphanumeric,
non-numeric tail). -/
def theaterGetTid (p : Packet) : Except Unit Int :=
  let lines := getDataLines p
  let tidLine := (lines.find? fun line => containsSeq (ascii "TID=") line).getD []
  let tidBytes := tidLine.drop 4
  if pyIsAlnum tidBytes then
    match pyInt tidBytes with
    | some n => .ok n
    | none => .error ()
  else .ok 0

/-- `TheaterPacket.set_transmission_type`: write header bytes 4–7 (the error
response type cannot be set and leaves the header unchanged). -/
def theaterSetTransmissionType (p : Packet) (tt : TheaterTT) : Packet :=
  { p with header :=
      match tt with
      | .request => setSlice p.header 4 8 [64, 0, 0, 0]
      | .okResponse => setSlice p.header 4 8 [0, 0, 0, 0]
      | .errorResponse => p.header }

/-- `TheaterPacket.validate_header`: base checks plus Theater type tag and a
request / success / known-error discriminator. -/
def theaterValidateHeader (p : Packet) : Bool :=
  validateHeaderBase p &&
    (decide (p.header.take 4 ∈ VALID_HEADER_TYPES_THEATER) &&
      (decide (bytes2int (getSlice p.header 4 8) = 0) ||
        (decide (p.header.getD 4 0 = 64) && decide (bytes2int (getSlice p.header 5 8) = 0)) ||
        decide (getSlice p.header 4 8 ∈ VALID_HEADER_ERROR_INDICATORS)))

/-- `Packet.build` for `FeslPacket`: pad the header stub to 12 bytes with
zeros, add the `\n\x00` body tail, then set transaction id (if given),
transmission type and length indicators. -/
def feslBuild (stub bodyData : Bytes) (tt : FeslTT) (tid : Option Nat) : Packet :=
  let p : Packet := ⟨stub ++ List.replicate (HEADER_LENGTH - stub.length) 0, bodyData ++ [10, 0]⟩
  let p := match tid with
    | some t => feslSetTid p t
    | none => p
  let p := feslSetTransmissionType p tt
  setLengthIndicators p

/-- `Packet.build` for `TheaterPacket`. -/
def theaterBuild (stub bodyData : Bytes) (tt : TheaterTT) (tid : Option Nat) : Packet :=
  let p : Packet := ⟨stub ++ List.replicate (HEADER_LENGTH - stub.length) 0, bodyData ++ [10, 0]⟩
  let p := match tid with
    | some t => theaterSetTid p t
    | none => p
  let p := theaterSetTransmissionType p tt
  setLengthIndicators p

/-! ### Helper lemmas for header slicing -/

theorem int2bytes_length (i k : Nat) : (int2bytes i k).length = k := by
  induction k generalizing i with
  | zero => rfl
  | succ k ih => simp [int2bytes, ih]

theorem bytes2int_append_singleton (a : Bytes) (x : Nat) :
    bytes2int (a ++ [x]) = bytes2int a * 256 + x := by
  simp [bytes2int, List.foldl_append]

theorem bytes2int_int2bytes (i k : Nat) : bytes2int (int2bytes i k) = i % 256 ^ k := by
  induction k generalizing i with
  | zero => simp [int2bytes, bytes2int, Nat.mod_one]
  | succ k ih =>
    rw [int2bytes, bytes2int_append_singleton, ih]
    rw [pow_succ, mul_comm (256 ^ k) 256, Nat.mod_mul]
    ring

theorem bytes2int_int2bytes_of_lt {i k : Nat} (h : i < 256 ^ k) :
    bytes2int (int2bytes i k) = i := by
  rw [bytes2int_int2bytes, Nat.mod_eq_of_lt h]

theorem setSlice_at {l₁ mid l₂ : Bytes} {i j : Nat} (h1 : l₁.length = i)
    (hm : l₁.length + mid.length = j) (r : Bytes) :
    setSlice (l₁ ++ (mid ++ l₂)) i j r = l₁ ++ (r ++ l₂) := by
  unfold setSlice
  rw [List.take_left' h1, ← List.append_assoc,
    List.drop_left' (by simpa using hm), List.append_assoc]

theorem getSlice_at {l₁ mid l₂ : Bytes} {i j : Nat} (h1 : l₁.length = i)
    (hm : mid.length = j - i) :
    getSlice (l₁ ++ (mid ++ l₂)) i j = mid := by
  unfold getSlice
  rw [List.drop_left' h1, List.take_left' hm]

/-- The discriminator byte written by `FeslPacket.set_transmission_type`. -/
def feslTTByte : FeslTT → Nat
  | .ping => 0x00
  | .singlePacketResponse => 0x80
  | .multiPacketResponse => 0xb0
  | .singlePacketRequest => 0xc0
  | .multiPacketRequest => 0xf0

theorem feslSetTransmissionType_eq (p : Packet) (tt : FeslTT) :
    feslSetTransmissionType p tt = { p with header := setSlice p.header 4 5 [feslTTByte tt] } := by
  cases tt <;> rfl

theorem feslTTByte_mem (tt : FeslTT) : feslTTByte tt ∈ [0, 128, 176, 192, 240] := by
  cases tt <;> decide

/-- Header normal form of `FeslPacket.build` with a transaction id. -/
theorem feslBuild_some_eq (stub bodyData : Bytes) (tt : FeslTT) (t : Nat)
    (h4 : stub.length = 4) :
    feslBuild stub bodyData tt (some t) =
      ⟨(stub ++ ([feslTTByte tt] ++ (int2bytes t 3 ++
          int2bytes (14 + bodyData.length) 4))),
        bodyData ++ [10, 0]⟩ := by
  unfold feslBuild
  dsimp only
  rw [feslSetTransmissionType_eq]
  simp only [HEADER_LENGTH, h4, feslSetTid, setLengthIndicators]
  have hrep : List.replicate (12 - 4) (0 : Nat) =
      [0] ++ ([0, 0, 0] ++ [0, 0, 0, 0]) := by decide
  rw [hrep]
  have e1 : stub ++ ([0] ++ ([0, 0, 0] ++ [0, 0, 0, 0])) =
      (stub ++ [0]) ++ ([0, 0, 0] ++ [0, 0, 0, 0]) := by
    simp [List.append_assoc]
  rw [e1, setSlice_at (by simp [h4]) (by simp [h4])]
  have e2 : (stub ++ [0]) ++ (int2bytes t 3 ++ [0, 0, 0, 0]) =
      stub ++ ([0] ++ (int2bytes t 3 ++ [0, 0, 0, 0])) := by
    simp [List.append_assoc]
  rw [e2, setSlice_at (by simp [h4]) (by simp [h4])]
  have e3 : stub ++ ([feslTTByte tt] ++ (int2bytes t 3 ++ [0, 0, 0, 0])) =
      (stub ++ ([feslTTByte tt] ++ int2bytes t 3)) ++ ([0, 0, 0, 0] ++ []) := by
    simp [List.append_assoc]
  rw [e3, setSlice_at (by simp [h4, int2bytes_length])
    (by simp [h4, int2bytes_length])]
  have hL : ((stub ++ ([feslTTByte tt] ++ int2bytes t 3)) ++ ([0, 0, 0, 0] ++ [])).length +
      (bodyData ++ [10, 0]).length = 14 + bodyData.length := by
    simp [h4, int2bytes_length]
    omega
  rw [hL]
  simp [List.append_assoc]

/-- Header normal form of `FeslPacket.build` without a transaction id. -/
theorem feslBuild_none_eq (stub bodyData : Bytes) (tt : FeslTT)
    (h4 : stub.length = 4) :
    feslBuild stub bodyData tt none =
      ⟨(stub ++ ([feslTTByte tt] ++ ([0, 0, 0] ++
          int2bytes (14 + bodyData.length) 4))),
        bodyData ++ [10, 0]⟩ := by
  unfold feslBuild
  dsimp only
  rw [feslSetTransmissionType_eq]
  simp only [HEADER_LENGTH, h4, setLengthIndicators]
  have hrep : List.replicate (12 - 4) (0 : Nat) =
      [0] ++ ([0, 0, 0] ++ [0, 0, 0, 0]) := by decide
  rw [hrep, setSlice_at (by simp [h4]) (by simp [h4])]
  have e3 : stub ++ ([feslTTByte tt] ++ ([0, 0, 0] ++ [0, 0, 0, 0])) =
      (stub ++ ([feslTTByte tt] ++ [0, 0, 0])) ++ ([0, 0, 0, 0] ++ []) := by
    simp [List.append_assoc]
  rw [e3, setSlice_at (by simp [h4]) (by simp [h4])]
  have hL : ((stub ++ ([feslTTByte tt] ++ [0, 0, 0])) ++ ([0, 0, 0, 0] ++ [])).length +
      (bodyData ++ [10, 0]).length = 14 + bodyData.length := by
    simp [h4]
    omega
  rw [hL]
  simp [List.append_assoc]

/-- The four discriminator bytes a freshly built Theater header carries
(`errorResponse` leaves the zero padding in place). -/
def theaterDiscBytes : TheaterTT → Bytes
  | .request => [64, 0, 0, 0]
  | .okResponse => [0, 0, 0, 0]
  | .errorResponse => [0, 0, 0, 0]

theorem theaterSetTransmissionType_pad (stub b : Bytes) (tt : TheaterTT)
    (h4 : stub.length = 4) :
    theaterSetTransmissionType ⟨stub ++ ([0, 0, 0, 0] ++ [0, 0, 0, 0]), b⟩ tt =
      ⟨stub ++ (theaterDiscBytes tt ++ [0, 0, 0, 0]), b⟩ := by
  cases tt <;>
    simp only [theaterSetTransmissionType, theaterDiscBytes] <;>
    rw [setSlice_at (by simp [h4]) (by simp [h4])]

/-- The body produced by `TheaterPacket.build`. -/
def theaterBuiltBody (data : Bytes) (tid : Option Nat) : Bytes :=
  match tid with
  | some t => data ++ 10 :: (ascii "TID=" ++ natToDec t ++ [10, 0])
  | none => data ++ [10, 0]

theorem theaterSetTid_body (p : Packet) (t : Nat) :
    (theaterSetTid p t).body = p.body.take (p.body.length - 2) ++
      10 :: (ascii "TID=" ++ natToDec t ++ [10, 0]) := rfl

theorem theaterBuild_body (stub data : Bytes) (tt : TheaterTT) (tid : Option Nat) :
    (theaterBuild stub data tt tid).body = theaterBuiltBody data tid := by
  cases tid with
  | none =>
    unfold theaterBuild theaterBuiltBody
    cases tt <;> rfl
  | some t =>
    unfold theaterBuild theaterBuiltBody
    dsimp only
    have hsetTT : ∀ (q : Packet), (theaterSetTransmissionType q tt).body = q.body := by
      intro q
      cases tt <;> rfl
    rw [setLengthIndicators, hsetTT, theaterSetTid_body]
    dsimp only
    simp only [List.length_append, List.length_cons, List.length_nil, Nat.add_sub_cancel]
    rw [List.take_left' rfl]

/-- Header normal form of `TheaterPacket.build`. -/
theorem theaterBuild_header (stub data : Bytes) (tt : TheaterTT) (tid : Option Nat)
    (h4 : stub.length = 4) :
    (theaterBuild stub data tt tid).header =
      (stub ++ theaterDiscBytes tt) ++
        (int2bytes (12 + (theaterBuiltBody data tid).length) 4 ++ []) := by
  have hdisc4 : (theaterDiscBytes tt).length = 4 := by cases tt <;> rfl
  have hrep : List.replicate (HEADER_LENGTH - stub.length) (0 : Nat) =
      [0, 0, 0, 0] ++ [0, 0, 0, 0] := by
    rw [h4]
    decide
  cases tid with
  | none =>
    unfold theaterBuild
    dsimp only
    rw [hrep, theaterSetTransmissionType_pad stub _ tt h4, setLengthIndicators]
    dsimp only
    have e : stub ++ (theaterDiscBytes tt ++ [0, 0, 0, 0]) =
        (stub ++ theaterDiscBytes tt) ++ ([0, 0, 0, 0] ++ []) := by
      simp [List.append_assoc]
    rw [e, setSlice_at (by simp [h4, hdisc4]) (by simp [h4, hdisc4])]
    have hlen : ((stub ++ theaterDiscBytes tt) ++ ([0, 0, 0, 0] ++ [])).length +
        (data ++ [10, 0]).length = 12 + (theaterBuiltBody data none).length := by
      simp [h4, hdisc4, theaterBuiltBody]
    rw [hlen]
  | some t =>
    unfold theaterBuild
    dsimp only
    have hst : theaterSetTid ⟨stub ++ ([0, 0, 0, 0] ++ [0, 0, 0, 0]), data ++ [10, 0]⟩ t =
        ⟨stub ++ ([0, 0, 0, 0] ++ [0, 0, 0, 0]), theaterBuiltBody data (some t)⟩ := by
      unfold theaterSetTid
      dsimp only
      simp only [List.length_append, List.length_cons, List.length_nil, Nat.add_sub_cancel]
      rw [List.take_left' rfl]
      rfl
    rw [hrep, hst, theaterSetTransmissionType_pad stub _ tt h4, setLengthIndicators]
    dsimp only
    have e : stub ++ (theaterDiscBytes tt ++ [0, 0, 0, 0]) =
        (stub ++ theaterDiscBytes tt) ++ ([0, 0, 0, 0] ++ []) := by
      simp [List.append_assoc]
    rw [e, setSlice_at (by simp [h4, hdisc4]) (by simp [h4, hdisc4])]
    have hlen : ((stub ++ theaterDiscBytes tt) ++ ([0, 0, 0, 0] ++ [])).length +
        (theaterBuiltBody data (some t)).length =
          12 + (theaterBuiltBody data (some t)).length := by
      simp [h4, hdisc4]
    rw [hlen]

theorem getD_after_four {l₁ : Bytes} (h4 : l₁.length = 4) (b : Nat) (rest : Bytes) :
    (l₁ ++ ([b] ++ rest)).getD 4 0 = b := by
  have : (l₁ ++ ([b] ++ rest)).getD 4 0 = ([b] ++ rest).getD 0 0 := by
    unfold List.getD
    rw [List.get?_append_right (by omega), h4]
  rw [this]
  rfl

/-- Structural facts about a 12-byte header of the shape
`stub(4) ++ [b] ++ T3(3) ++ L4(4)`. -/
theorem fesl_header_facts {stub T3 L4 : Bytes} (h4 : stub.length = 4) (b : Nat)
    (h3 : T3.length = 3) (hL : L4.length = 4) :
    (stub ++ ([b] ++ (T3 ++ L4))).length = 12 ∧
      getSlice (stub ++ ([b] ++ (T3 ++ L4))) 8 12 = L4 ∧
      getSlice (stub ++ ([b] ++ (T3 ++ L4))) 5 8 = T3 ∧
      (stub ++ ([b] ++ (T3 ++ L4))).take 4 = stub ∧
      (stub ++ ([b] ++ (T3 ++ L4))).getD 4 0 = b := by
  have e8 : stub ++ ([b] ++ (T3 ++ L4)) = (stub ++ ([b] ++ T3)) ++ (L4 ++ []) := by
    simp [List.append_assoc]
  have e5 : stub ++ ([b] ++ (T3 ++ L4)) = (stub ++ [b]) ++ (T3 ++ L4) := by
    simp [List.append_assoc]
  refine ⟨by simp [h4, h3, hL], ?_, ?_, ?_, ?_⟩
  · rw [e8, getSlice_at (by simp [h4, h3]) (by simp [hL])]
  · rw [e5, getSlice_at (by simp [h4]) (by simp [h3])]
  · rw [List.take_left' h4]
  · exact getD_after_four h4 b (T3 ++ L4)

theorem feslBuild_getTid (stub bodyData : Bytes) (tt : FeslTT) (t : Nat)
    (h4 : stub.length = 4) (ht : t < 2 ^ 24) :
    feslGetTid (feslBuild stub bodyData tt (some t)) = t := by
  rw [feslBuild_some_eq stub bodyData tt t h4]
  unfold feslGetTid
  dsimp only
  rw [(fesl_header_facts h4 (feslTTByte tt) (int2bytes_length t 3)
    (int2bytes_length _ 4)).2.2.1]
  exact bytes2int_int2bytes_of_lt (by simpa using ht)

theorem feslBuild_body (stub bodyData : Bytes) (tt : FeslTT) (tid : Option Nat) :
    (feslBuild stub bodyData tt tid).body = bodyData ++ [10, 0] := by
  unfold feslBuild
  dsimp only
  have h1 : ∀ (q : Packet) (t : Nat), (feslSetTid q t).body = q.body := fun _ _ => rfl
  have h2 : ∀ (q : Packet), (feslSetTransmissionType q tt).body = q.body := by
    intro q
    cases tt <;> rfl
  cases tid <;> simp [setLengthIndicators, h1, h2]

theorem natToDecAux_length_le :
    ∀ n k f, n ≤ f → n < 10 ^ k → (natToDecAux f n).length ≤ k := by
  intro n
  induction n using Nat.strong_induction_on with
  | _ n ih =>
    intro k f hf hk
    by_cases hn : n = 0
    · subst hn
      simp [natToDecAux_zero]
    · obtain ⟨g, rfl⟩ := Nat.exists_eq_succ_of_ne_zero (by omega : f ≠ 0)
      obtain ⟨j, rfl⟩ : ∃ j, k = j + 1 := by
        rcases k with _ | j
        · simp at hk
          omega
        · exact ⟨j, rfl⟩
      simp only [natToDecAux, hn, if_false, List.length_append, List.length_cons,
        List.length_nil]
      have hdiv : n / 10 < n := Nat.div_lt_self (by omega) (by norm_num)
      have hdivk : n / 10 < 10 ^ j := by
        rw [Nat.div_lt_iff_lt_mul (by norm_num)]
        calc n < 10 ^ (j + 1) := hk
        _ = 10 ^ j * 10 := by ring
      have := ih (n / 10) hdiv j g (by omega) hdivk
      omega

theorem natToDec_length_le {n k : Nat} (hk : 1 ≤ k) (h : n < 10 ^ k) :
    (natToDec n).length ≤ k := by
  by_cases hn : n = 0
  · simp [hn, natToDec]
    omega
  · simp only [natToDec, hn, if_false]
    exact natToDecAux_length_le n k n le_rfl h

/-! ### Claim C4 -/

/-- C4: every packet constructed via `build` — FESL or Theater family, with a
whitelisted 4-byte type tag, a transaction id below 2^24 when one is given,
and a body small enough for the 32-bit length field — indicates exactly
`len(header) + len(body)` in header bytes 8–11 and passes both
`validate_header` and `validate_body`. -/
theorem build_length_and_validation :
    (∀ stub bodyData tt tid, stub ∈ VALID_HEADER_TYPES_FESL →
      (∀ t ∈ tid, t < 2 ^ 24) → bodyData.length + 14 < 2 ^ 32 →
      indicatedLength (feslBuild stub bodyData tt tid) =
        (feslBuild stub bodyData tt tid).header.length +
          (feslBuild stub bodyData tt tid).body.length ∧
      feslValidateHeader (feslBuild stub bodyData tt tid) = true ∧
      validateBody (feslBuild stub bodyData tt tid) = true) ∧
    (∀ stub bodyData tt tid, stub ∈ VALID_HEADER_TYPES_THEATER →
      (∀ t ∈ tid, t < 2 ^ 24) → bodyData.length + 40 < 2 ^ 32 →
      indicatedLength (theaterBuild stub bodyData tt tid) =
        (theaterBuild stub bodyData tt tid).header.length +
          (theaterBuild stub bodyData tt tid).body.length ∧
      theaterValidateHeader (theaterBuild stub bodyData tt tid) = true ∧
      validateBody (theaterBuild stub bodyData tt tid) = true) := by
  constructor
  · intro stub bodyData tt tid hstub htid hsize
    have h4 : stub.length = 4 := by
      simp only [VALID_HEADER_TYPES_FESL, List.mem_cons, List.mem_singleton,
        List.not_mem_nil, or_false] at hstub
      rcases hstub with rfl | rfl | rfl | rfl <;> decide
    have hbody := feslBuild_body stub bodyData tt tid
    have hbound : 14 + bodyData.length < 2 ^ 32 := by omega
    have key : ∃ T3 : Bytes, T3.length = 3 ∧
        feslBuild stub bodyData tt tid =
          ⟨stub ++ ([feslTTByte tt] ++ (T3 ++ int2bytes (14 + bodyData.length) 4)),
            bodyData ++ [10, 0]⟩ := by
      cases tid with
      | none => exact ⟨[0, 0, 0], rfl, feslBuild_none_eq stub bodyData tt h4⟩
      | some t => exact ⟨int2bytes t 3, int2bytes_length t 3,
          feslBuild_some_eq stub bodyData tt t h4⟩
    obtain ⟨T3, h3, hkey⟩ := key
    obtain ⟨hlen, hs812, hs58, htake, hgetD⟩ :=
      fesl_header_facts h4 (feslTTByte tt) h3 (int2bytes_length (14 + bodyData.length) 4)
    have hind : indicatedLength (feslBuild stub bodyData tt tid) = 14 + bodyData.length := by
      rw [hkey]
      unfold indicatedLength
      dsimp only
      rw [hs812]
      exact bytes2int_int2bytes_of_lt (by simpa using hbound)
    refine ⟨?_, ?_, ?_⟩
    · rw [hind, hkey]
      dsimp only
      rw [hlen]
      simp only [List.length_append, List.length_cons, List.length_nil]
      omega
    · unfold feslValidateHeader validateHeaderBase
      rw [hkey]
      dsimp only
      simp only [Bool.and_eq_true, decide_eq_true_eq]
      refine ⟨⟨by simpa [HEADER_LENGTH] using hlen, ?_⟩, ?_, ?_⟩
      · rw [hs812, bytes2int_int2bytes_of_lt (by simpa using hbound)]
        omega
      · rw [htake]
        exact hstub
      · rw [hgetD]
        exact feslTTByte_mem tt
    · unfold validateBody indicatedLength
      rw [hkey]
      dsimp only
      simp only [decide_eq_true_eq]
      rw [hs812, bytes2int_int2bytes_of_lt (by simpa using hbound), hlen]
      simp only [List.length_append, List.length_cons, List.length_nil]
      omega
  · intro stub bodyData tt tid hstub htid hsize
    have h4 : stub.length = 4 := by
      simp only [VALID_HEADER_TYPES_THEATER, List.mem_cons, List.mem_singleton,
        List.not_mem_nil, or_false] at hstub
      rcases hstub with rfl | rfl | rfl | rfl | rfl | rfl | rfl | rfl | rfl <;> decide
    have hbody := theaterBuild_body stub bodyData tt tid
    have hhdr := theaterBuild_header stub bodyData tt tid h4
    have hdisc4 : (theaterDiscBytes tt).length = 4 := by cases tt <;> rfl
    set B := theaterBuiltBody bodyData tid with hB
    have hTID4 : (ascii "TID=").length = 4 := rfl
    have hBlen : B.length ≤ bodyData.length + 15 := by
      cases tid with
      | none =>
        simp only [hB, theaterBuiltBody, List.length_append, List.length_cons,
          List.length_nil]
        omega
      | some t =>
        have hdig : (natToDec t).length ≤ 8 := by
          refine natToDec_length_le (by norm_num) ?_
          have := htid t rfl
          calc t < 2 ^ 24 := this
          _ < 10 ^ 8 := by norm_num
        simp only [hB, theaterBuiltBody, List.length_append, List.length_cons,
          List.length_nil]
        omega
    have hbound : 12 + B.length < 2 ^ 32 := by omega
    have hBpos : 2 ≤ B.length := by
      cases tid with
      | none =>
        simp only [hB, theaterBuiltBody, List.length_append, List.length_cons,
          List.length_nil]
        omega
      | some t =>
        simp only [hB, theaterBuiltBody, List.length_append, List.length_cons,
          List.length_nil]
        omega
    have hlen : (theaterBuild stub bodyData tt tid).header.length = 12 := by
      rw [hhdr]
      simp [h4, hdisc4, int2bytes_length]
    have hs812 : getSlice (theaterBuild stub bodyData tt tid).header 8 12 =
        int2bytes (12 + B.length) 4 := by
      rw [hhdr]
      exact getSlice_at (by simp [h4, hdisc4]) (by simp [int2bytes_length])
    have hind : indicatedLength (theaterBuild stub bodyData tt tid) = 12 + B.length := by
      unfold indicatedLength
      rw [hs812]
      exact bytes2int_int2bytes_of_lt (by simpa using hbound)
    refine ⟨?_, ?_, ?_⟩
    · rw [hind, hlen, hbody]
    · unfold theaterValidateHeader validateHeaderBase
      simp only [Bool.and_eq_true, Bool.or_eq_true, decide_eq_true_eq]
      refine ⟨⟨by simpa [HEADER_LENGTH] using hlen, ?_⟩, ?_, ?_⟩
      · unfold indicatedLength at hind
        rw [hind]
        omega
      · rw [hhdr, List.append_assoc, List.take_left' h4]
        exact hstub
      · have hs48 : getSlice (theaterBuild stub bodyData tt tid).header 4 8 =
            theaterDiscBytes tt := by
          rw [hhdr, List.append_assoc]
          exact getSlice_at h4 (by simp [hdisc4])
        cases tt with
        | request =>
          left
          right
          constructor
          · rw [hhdr]
            have e : (stub ++ theaterDiscBytes TheaterTT.request) ++
                (int2bytes (12 + B.length) 4 ++ []) =
                stub ++ ([64] ++ ([0, 0, 0] ++ (int2bytes (12 + B.length) 4 ++ []))) := by
              simp [theaterDiscBytes, List.append_assoc]
            rw [e]
            exact getD_after_four h4 64 _
          · have hs58 : getSlice (theaterBuild stub bodyData TheaterTT.request tid).header 5 8 =
                [0, 0, 0] := by
              rw [hhdr]
              have e : (stub ++ theaterDiscBytes TheaterTT.request) ++
                  (int2bytes (12 + B.length) 4 ++ []) =
                  (stub ++ [64]) ++ ([0, 0, 0] ++ (int2bytes (12 + B.length) 4 ++ [])) := by
                simp [theaterDiscBytes, List.append_assoc]
              rw [e]
              exact getSlice_at (by simp [h4]) (by simp)
            rw [hs58]
            decide
        | okResponse =>
          left
          left
          rw [hs48]
          decide
        | errorResponse =>
          left
          left
          rw [hs48]
          decide
    · unfold validateBody
      simp only [decide_eq_true_eq]
      rw [hind, hlen, hbody]

/-- C4 (witness): the concrete hello request and a concrete Theater GDAT
request both satisfy the conclusion. -/
theorem build_length_and_validation_witness :
    feslValidateHeader (feslBuild (ascii "fsys") (ascii "TXN=Hello") .singlePacketRequest
      (some 1)) = true ∧
    theaterValidateHeader (theaterBuild (ascii "GDAT") (ascii "LID=257") .request
      (some 1)) = true :=
  ⟨(build_length_and_validation.1 (ascii "fsys") (ascii "TXN=Hello") .singlePacketRequest
      (some 1) (by decide) (by decide) (by decide)).2.1,
    (build_length_and_validation.2 (ascii "GDAT") (ascii "LID=257") .request
      (some 1) (by decide) (by decide) (by decide)).2.1⟩

/-! ### Claim C5 -/

theorem isPrefixOf_append_self (l r : Bytes) : l.isPrefixOf (l ++ r) = true := by
  induction l with
  | nil => simp [List.isPrefixOf]
  | cons b tl ih => simp [List.isPrefixOf, ih]

theorem containsSeq_append_self (b : Nat) (tl r : Bytes) :
    containsSeq (b :: tl) ((b :: tl) ++ r) = true := by
  have h : containsSeq (b :: tl) ((b :: tl) ++ r) =
      ((b :: tl).isPrefixOf ((b :: tl) ++ r) || containsSeq (b :: tl) (tl ++ r)) := rfl
  rw [h, isPrefixOf_append_self]
  rfl

theorem find?_append_of_forall_false {p : Bytes → Bool} {l₁ : List Bytes} (l₂ : List Bytes)
    (h : ∀ x ∈ l₁, p x = false) : (l₁ ++ l₂).find? p = l₂.find? p := by
  induction l₁ with
  | nil => rfl
  | cons x tl ih =>
    simp only [List.cons_append, List.find?]
    rw [h x (by simp)]
    exact ih fun y hy => h y (by simp [hy])

theorem pyIsAlnum_natToDec (t : Nat) : pyIsAlnum (natToDec t) = true := by
  have hne := natToDec_ne_nil t
  have hdig := natToDec_digits t
  unfold pyIsAlnum
  rw [Bool.and_eq_true, List.all_eq_true]
  constructor
  · simpa using hne
  · intro c hc
    rw [hdig c hc]
    rfl

/-- The value of `TheaterPacket.get_tid` after `set_tid(t)` rewrote the body
trailer of a packet built without a transaction id, provided no body line
already contains `TID=`. -/
theorem theaterGetTid_setTid (stub data : Bytes) (tt : TheaterTT) (t : Nat)
    (hfree : ∀ line ∈ splitOnByte 10 data, containsSeq (ascii "TID=") line = false) :
    theaterGetTid (theaterSetTid (theaterBuild stub data tt none) t) = .ok (t : Int) := by
  have hbody : (theaterSetTid (theaterBuild stub data tt none) t).body =
      (data ++ 10 :: (ascii "TID=" ++ natToDec t ++ [10])) ++ [0] := by
    rw [theaterSetTid_body, theaterBuild_body]
    unfold theaterBuiltBody
    simp only [List.length_append, List.length_cons, List.length_nil, Nat.add_sub_cancel]
    rw [List.take_left' rfl]
    simp [List.append_assoc]
  have hdata : getData (theaterSetTid (theaterBuild stub data tt none) t) =
      data ++ 10 :: (ascii "TID=" ++ natToDec t ++ [10]) := by
    unfold getData
    rw [hbody, List.getLast?_concat, List.dropLast_concat]
  have hlines : getDataLines (theaterSetTid (theaterBuild stub data tt none) t) =
      splitOnByte 10 data ++ ((ascii "TID=" ++ natToDec t) :: [[]]) := by
    unfold getDataLines
    rw [hdata, splitOnByte_append_sep]
    congr 1
    have e : ascii "TID=" ++ natToDec t ++ [10] =
        (ascii "TID=" ++ natToDec t) ++ 10 :: [] := by simp
    rw [e, splitOnByte_append_sep,
      splitOnByte_of_not_mem (l := ascii "TID=" ++ natToDec t) ?hmem]
    · rfl
    case hmem =>
      intro hmem
      rcases List.mem_append.mp hmem with h | h
      · revert h
        decide
      · have := natToDec_digits t 10 h
        revert this
        decide
  have hfound : (getDataLines (theaterSetTid (theaterBuild stub data tt none) t)).find?
      (fun line => containsSeq (ascii "TID=") line) =
        some (ascii "TID=" ++ natToDec t) := by
    rw [hlines, find?_append_of_forall_false _ hfree]
    have hcontains : containsSeq (ascii "TID=") (ascii "TID=" ++ natToDec t) = true := by
      have e : ascii "TID=" = 84 :: [73, 68, 61] := rfl
      rw [e]
      exact containsSeq_append_self 84 [73, 68, 61] (natToDec t)
    simp [List.find?, hcontains]
  unfold theaterGetTid
  dsimp only
  rw [hfound]
  dsimp only [Option.getD]
  have hdrop : (ascii "TID=" ++ natToDec t).drop 4 = natToDec t :=
    List.drop_left' rfl
  rw [hdrop, pyIsAlnum_natToDec, if_pos rfl, pyInt_natToDec]

/-- C5 (counterexample): on a Theater packet built with transaction id 1,
`set_tid(2)` appends a second `TID=` line but `get_tid` still finds the first
one, so `set_tid(2); get_tid()` returns 1, not 2. -/
theorem set_get_tid_counterexample :
    theaterGetTid (theaterSetTid (theaterBuild (ascii "CONN") [] .request (some 1)) 2) =
      .ok 1 := rfl

/-- C5 (amended): `set_tid(t); get_tid() == t` for every `t < 2^24` on a FESL
packet with its full 12-byte header, and on a Theater packet built via `build`
without a transaction id whose body data contains no `TID=` substring in any
line (the counterexample shows a packet built *with* a transaction id keeps
answering the old id, because the body rewrite appends rather than replaces
the `TID=` line). -/
theorem set_get_tid_roundtrip :
    (∀ (p : Packet) (t : Nat), p.header.length = HEADER_LENGTH → t < 2 ^ 24 →
      feslGetTid (feslSetTid p t) = t) ∧
    (∀ (stub data : Bytes) (tt : TheaterTT) (t : Nat), t < 2 ^ 24 →
      (∀ line ∈ splitOnByte 10 data, containsSeq (ascii "TID=") line = false) →
      theaterGetTid (theaterSetTid (theaterBuild stub data tt none) t) = .ok (t : Int)) := by
  constructor
  · intro p t hlen ht
    unfold feslSetTid feslGetTid setSlice getSlice
    dsimp only
    have e : p.header.take 5 ++ int2bytes t 3 ++ p.header.drop 8 =
        p.header.take 5 ++ (int2bytes t 3 ++ p.header.drop 8) := by
      simp [List.append_assoc]
    rw [e, List.drop_left' (by simp [hlen, HEADER_LENGTH]),
      List.take_left' (by simp [int2bytes_length])]
    exact bytes2int_int2bytes_of_lt (by simpa using ht)
  · intro stub data tt t ht hfree
    exact theaterGetTid_setTid stub data tt t hfree

/-- C5 (witness): the amended law at a 12-byte FESL header with tid 7 and a
Theater CONN packet with tid 5. -/
theorem set_get_tid_roundtrip_witness :
    feslGetTid (feslSetTid (Packet.mk (ascii "fsys" ++ [0, 0, 0, 0, 0, 0, 0, 0]) []) 7) = 7 ∧
    theaterGetTid (theaterSetTid (theaterBuild (ascii "CONN") (ascii "PROT=2")
      .request none) 5) = .ok 5 :=
  ⟨set_get_tid_roundtrip.1 (Packet.mk (ascii "fsys" ++ [0, 0, 0, 0, 0, 0, 0, 0]) [])
      7 (by decide) (by decide),
    set_get_tid_roundtrip.2 (ascii "CONN") (ascii "PROT=2") .request 5 (by decide)
      (by decide)⟩

/-! ## Client read loop (src/pybfbc2stats/client.py, `Client.wrapped_read`) -/

/-- Embedding of `Client.wrapped_read(tid)` over the stream of packets the
connection will deliver.  `auto` embeds `is_auto_respond_packet` together
with its handler: `some reply` means the packet prompts an immediate
response (`reply` is what the handler writes) after which another packet is
read; `tidOf` embeds the (dynamically dispatched) `get_tid`.  The result
pairs the auto-responses written during the read with the packet returned
(`none` when the stream is exhausted, where the Python code would block on
the socket). -/
def wrappedRead {α β : Type} (auto : α → Option β) (tidOf : α → Int) (tid : Int) :
    List α → List β × Option α
  | [] => ([], none)
  | p :: rest =>
    match auto p with
    | some reply =>
      let r := wrappedRead auto tidOf tid rest
      (reply :: r.1, r.2)
    | none =>
      if tidOf p < tid then wrappedRead auto tidOf tid rest
      else ([], some p)

/-! ### Claim C3 -/

/-- C3: `wrapped_read(tid)` returns exactly the first non-auto-respond packet
of the stream whose transaction id is at least `tid` (dropping every
non-auto-respond packet with a smaller id and continuing), and therefore
never returns a packet with a transaction id below `tid`. -/
theorem wrapped_read_tid_filter {α β : Type} (auto : α → Option β) (tidOf : α → Int)
    (tid : Int) (stream : List α) :
    (wrappedRead auto tidOf tid stream).2 =
      stream.find? (fun p => (auto p).isNone && decide (tid ≤ tidOf p)) ∧
    ∀ p, (wrappedRead auto tidOf tid stream).2 = some p → tid ≤ tidOf p := by
  have hcons : ∀ (p : α) (rest : List α), wrappedRead auto tidOf tid (p :: rest) =
      match auto p with
      | some reply => (reply :: (wrappedRead auto tidOf tid rest).1,
          (wrappedRead auto tidOf tid rest).2)
      | none =>
        if tidOf p < tid then wrappedRead auto tidOf tid rest else ([], some p) := by
    intro p rest
    rfl
  have hfind : (wrappedRead auto tidOf tid stream).2 =
      stream.find? (fun p => (auto p).isNone && decide (tid ≤ tidOf p)) := by
    induction stream with
    | nil => rfl
    | cons p rest ih =>
      rw [hcons]
      rcases hauto : auto p with _ | reply
      · dsimp only
        by_cases hlt : tidOf p < tid
        · have hp : ((auto p).isNone && decide (tid ≤ tidOf p)) = false := by
            rw [hauto]
            simp only [Option.isNone_none, Bool.true_and, decide_eq_false_iff_not]
            omega
          rw [if_pos hlt, ih, List.find?_cons, hp]
        · have hp : ((auto p).isNone && decide (tid ≤ tidOf p)) = true := by
            rw [hauto]
            simp only [Option.isNone_none, Bool.true_and, decide_eq_true_eq]
            omega
          rw [if_neg hlt, List.find?_cons, hp]
      · dsimp only
        have hp : ((auto p).isNone && decide (tid ≤ tidOf p)) = false := by
          rw [hauto]
          simp
        rw [ih, List.find?_cons, hp]
  refine ⟨hfind, fun p hp => ?_⟩
  rw [hfind] at hp
  have := List.find?_some hp
  simp only [Bool.and_eq_true, decide_eq_true_eq] at this
  exact this.2

/-- C3 (witness): with no auto-respond packets and FESL transaction ids, a
stream holding a stale tid-1 response followed by a tid-3 response, read with
current tid 2, returns the tid-3 packet, whose id is indeed ≥ 2. -/
theorem wrapped_read_tid_filter_witness :
    (2 : Int) ≤ (fun p => (feslGetTid p : Int))
      (feslBuild (ascii "acct") (ascii "TXN=NuLookupUserInfo") .singlePacketResponse
        (some 3)) :=
  (wrapped_read_tid_filter (fun _ : Packet => (none : Option Packet))
      (fun p => (feslGetTid p : Int)) 2
      [feslBuild (ascii "acct") (ascii "TXN=old") .singlePacketResponse (some 1),
       feslBuild (ascii "acct") (ascii "TXN=NuLookupUserInfo") .singlePacketResponse
         (some 3)]).2
    (feslBuild (ascii "acct") (ascii "TXN=NuLookupUserInfo") .singlePacketResponse (some 3))
    rfl

/-! ### Claim C10 -/

/-- The client-owned mutable state relevant to timeouts: `Client.__init__`
stores `max(timeout, 2.0)` on the connection; floats are modelled as exact
rationals (Python `max` on finite floats returns one of its arguments, so the
comparison is exact). -/
structure ClientState where
  timeout : ℚ
  transactionId : Nat
deriving Repr, DecidableEq

/-- Embedding of `Client.__init__(connection, platform, client_string,
timeout, track_steps)`: `self.connection.timeout = max(timeout, 2.0)` and
`self.transaction_id = 0`. -/
def clientInit (timeout : ℚ) : ClientState := ⟨max timeout 2, 0⟩

/-- Embedding of `Client.get_transaction_id`: the only method of the client
that mutates client-owned state after construction (`completed_steps` caching
aside); it increments the counter and leaves the connection timeout alone. -/
def getTransactionId (s : ClientState) : Nat × ClientState :=
  (s.transactionId + 1, ⟨s.timeout, s.transactionId + 1⟩)

/-- C10: a client constructed with timeout `x` sets the connection's per-read
timeout to `max(x, 2.0)`, which is never below 2 seconds, and the state
transition the client operations perform (`get_transaction_id`) preserves
it. -/
theorem client_timeout_clamped (x : ℚ) :
    (clientInit x).timeout = max x 2 ∧ 2 ≤ (clientInit x).timeout ∧
      ∀ s : ClientState, ((getTransactionId s).2).timeout = s.timeout :=
  ⟨rfl, le_max_right x 2, fun _ => rfl⟩

/-! ## Transfer encodings used by the client (base64, percent-quoting)

These embed the Python standard-library calls made by
`FeslClient.build_stats_query_packets` and `process_response_packet`:
`base64.b64encode`/`b64decode` and `urllib.parse.quote_from_bytes` (with its
default `safe='/'`) / `unquote_to_bytes`. -/

/-- The base64 alphabet. -/
def b64chars : Bytes :=
  ascii "ABCDEFGHIJKLMNOPQRSTUVWXYZabcdefghijklmnopqrstuvwxyz0123456789+/"

def b64char (i : Nat) : Nat := b64chars.getD i 0

/-- Embedding of `base64.b64encode`: 3-byte groups become 4 alphabet
characters; a 2-byte tail gets one `=` pad, a 1-byte tail two. -/
def b64encode : Bytes → Bytes
  | b1 :: b2 :: b3 :: tl =>
    b64char (b1 / 4) :: b64char ((b1 % 4) * 16 + b2 / 16) ::
      b64char ((b2 % 16) * 4 + b3 / 64) :: b64char (b3 % 64) :: b64encode tl
  | [b1, b2] => [b64char (b1 / 4), b64char ((b1 % 4) * 16 + b2 / 16),
      b64char ((b2 % 16) * 4), 61]
  | [b1] => [b64char (b1 / 4), b64char ((b1 % 4) * 16), 61, 61]
  | [] => []

/-- Inverse of the base64 alphabet (garbage input maps to 0; Python raises
`binascii.Error` on characters outside the alphabet, which no theorem here
exercises). -/
def b64inv (c : Nat) : Nat :=
  if 65 ≤ c ∧ c ≤ 90 then c - 65
  else if 97 ≤ c ∧ c ≤ 122 then c - 71
  else if 48 ≤ c ∧ c ≤ 57 then c + 4
  else if c = 43 then 62
  else if c = 47 then 63
  else 0

/-- Embedding of `base64.b64decode` on well-formed input: 4-character groups
become 3 bytes; `=` padding truncates the final group.  (Python raises on
input whose length is not a multiple of 4; such input never arises here.) -/
def b64decode : Bytes → Bytes
  | c1 :: c2 :: c3 :: c4 :: tl =>
    if c4 = 61 then
      if c3 = 61 then [b64inv c1 * 4 + b64inv c2 / 16]
      else [b64inv c1 * 4 + b64inv c2 / 16, b64inv c2 % 16 * 16 + b64inv c3 / 4]
    else
      (b64inv c1 * 4 + b64inv c2 / 16) :: (b64inv c2 % 16 * 16 + b64inv c3 / 4) ::
        (b64inv c3 % 4 * 64 + b64inv c4) :: b64decode tl
  | _ => []

/-- The bytes whose characters `quote_from_bytes` leaves unescaped: the
always-safe set (ASCII letters, digits, `_.-~`) plus the default `safe='/'`. -/
def isQuoteSafe (c : Nat) : Bool :=
  (decide (65 ≤ c) && decide (c ≤ 90)) || (decide (97 ≤ c) && decide (c ≤ 122)) ||
    (decide (48 ≤ c) && decide (c ≤ 57)) || decide (c ∈ [95, 46, 45, 126, 47])

def hexUpperDigit (v : Nat) : Nat := if v < 10 then v + 48 else v + 55

def isHexDigit (c : Nat) : Bool :=
  isDecDigit c || (decide (65 ≤ c) && decide (c ≤ 70)) ||
    (decide (97 ≤ c) && decide (c ≤ 102))

def hexVal (c : Nat) : Nat := if c ≤ 57 then c - 48 else if c ≤ 70 then c - 55 else c - 87

/-- Embedding of `urllib.parse.quote_from_bytes(bs)` with the default
`safe='/'`: safe bytes pass through, the rest become `%XX` with uppercase
hex. -/
def quoteFromBytes : Bytes → Bytes
  | [] => []
  | c :: tl =>
    (if isQuoteSafe c then [c] else [37, hexUpperDigit (c / 16), hexUpperDigit (c % 16)]) ++
      quoteFromBytes tl

/-- Fuel-driven scanner for `unquote_to_bytes`; any fuel ≥ the input length
computes the function. -/
def unquoteAux : Nat → Bytes → Bytes
  | 0, _ => []
  | _ + 1, [] => []
  | fuel + 1, c :: tl =>
    if c = 37 then
      match tl with
      | h1 :: h2 :: tl₂ =>
        if isHexDigit h1 && isHexDigit h2 then
          (hexVal h1 * 16 + hexVal h2) :: unquoteAux fuel tl₂
        else 37 :: unquoteAux fuel tl
      | _ => 37 :: unquoteAux fuel tl
    else c :: unquoteAux fuel tl

/-- Embedding of `urllib.parse.unquote_to_bytes`: each `%` followed by two
hex digits decodes to one byte, any other `%` stays literal.  (Python
implements this by splitting on `%` and testing each segment's first two
characters against a hex table; this scanner computes the same function.) -/
def unquoteToBytes (l : Bytes) : Bytes := unquoteAux l.length l

/-- Fuel-driven chunk splitter; any fuel ≥ the list length computes
`[l[0:n], l[n:2n], …]`. -/
def chunksAux (n : Nat) : Nat → Bytes → List Bytes
  | 0, _ => []
  | fuel + 1, l => if l = [] then [] else l.take n :: chunksAux n fuel (l.drop n)

/-- Embedding of `for i in range(0, len(data), size): data[i:i+size]` as used
for fragmenting the stats query (the size is never 0 there). -/
def chunks (n : Nat) (l : Bytes) : List Bytes := chunksAux n l.length l

/-! ### Round-trip lemmas for the encodings -/

theorem b64inv_b64char {k : Nat} (hk : k < 64) : b64inv (b64char k) = k := by
  have h : ∀ j : Fin 64, b64inv (b64char j.val) = j.val := by decide
  exact h ⟨k, hk⟩

theorem b64char_ne_pad {k : Nat} (hk : k < 64) : b64char k ≠ 61 := by
  have h : ∀ j : Fin 64, b64char j.val ≠ 61 := by decide
  exact h ⟨k, hk⟩

theorem b64char_lt {k : Nat} (hk : k < 64) : b64char k < 256 := by
  have h : ∀ j : Fin 64, b64char j.val < 256 := by decide
  exact h ⟨k, hk⟩

theorem b64decode_b64encode (x : Bytes) (hx : ∀ b ∈ x, b < 256) :
    b64decode (b64encode x) = x := by
  induction x using b64encode.induct with
  | case1 b1 b2 b3 tl ih =>
    have h1 : b1 < 256 := hx b1 (by simp)
    have h2 : b2 < 256 := hx b2 (by simp)
    have h3 : b3 < 256 := hx b3 (by simp)
    rw [b64encode, b64decode]
    rw [if_neg (b64char_ne_pad (by omega))]
    rw [b64inv_b64char (by omega), b64inv_b64char (by omega),
      b64inv_b64char (by omega), b64inv_b64char (by omega)]
    rw [ih (fun b hb => hx b (by simp [hb]))]
    congr 1
    · omega
    congr 1
    · omega
    congr 1
    omega
  | case2 b1 b2 =>
    have h1 : b1 < 256 := hx b1 (by simp)
    have h2 : b2 < 256 := hx b2 (by simp)
    rw [b64encode, b64decode]
    rw [if_pos rfl, if_neg (b64char_ne_pad (by omega))]
    rw [b64inv_b64char (by omega), b64inv_b64char (by omega),
      b64inv_b64char (by omega)]
    congr 1
    · omega
    congr 1
    omega
  | case3 b1 =>
    have h1 : b1 < 256 := hx b1 (by simp)
    rw [b64encode, b64decode]
    rw [if_pos rfl, if_pos rfl]
    rw [b64inv_b64char (by omega), b64inv_b64char (by omega)]
    congr 1
    omega
  | case4 => rfl

theorem b64encode_length_ge (x : Bytes) : x.length ≤ (b64encode x).length := by
  induction x using b64encode.induct with
  | case1 b1 b2 b3 tl ih =>
    rw [b64encode]
    simp only [List.length_cons]
    omega
  | case2 b1 b2 => rw [b64encode]; simp
  | case3 b1 => rw [b64encode]; simp
  | case4 => rfl

theorem b64encode_all_lt (x : Bytes) (hx : ∀ b ∈ x, b < 256) :
    ∀ b ∈ b64encode x, b < 256 := by
  induction x using b64encode.induct with
  | case1 b1 b2 b3 tl ih =>
    have h1 : b1 < 256 := hx b1 (by simp)
    have h2 : b2 < 256 := hx b2 (by simp)
    have h3 : b3 < 256 := hx b3 (by simp)
    rw [b64encode]
    intro b hb
    rcases hb with _ | ⟨_, _ | ⟨_, _ | ⟨_, _ | ⟨_, hb⟩⟩⟩⟩
    · exact b64char_lt (by omega)
    · exact b64char_lt (by omega)
    · exact b64char_lt (by omega)
    · exact b64char_lt (by omega)
    · exact ih (fun b hb => hx b (by simp [hb])) b hb
  | case2 b1 b2 =>
    have h1 : b1 < 256 := hx b1 (by simp)
    have h2 : b2 < 256 := hx b2 (by simp)
    rw [b64encode]
    intro b hb
    rcases hb with _ | ⟨_, _ | ⟨_, _ | ⟨_, _ | ⟨_, hb⟩⟩⟩⟩
    · exact b64char_lt (by omega)
    · exact b64char_lt (by omega)
    · exact b64char_lt (by omega)
    · omega
    · cases hb
  | case3 b1 =>
    have h1 : b1 < 256 := hx b1 (by simp)
    rw [b64encode]
    intro b hb
    rcases hb with _ | ⟨_, _ | ⟨_, _ | ⟨_, _ | ⟨_, hb⟩⟩⟩⟩
    · exact b64char_lt (by omega)
    · exact b64char_lt (by omega)
    · omega
    · omega
    · cases hb
  | case4 => simp [b64encode]

theorem hexDigit_facts {v : Nat} (hv : v < 16) :
    isHexDigit (hexUpperDigit v) = true ∧ hexVal (hexUpperDigit v) = v := by
  have h : ∀ j : Fin 16, isHexDigit (hexUpperDigit j.val) = true ∧
      hexVal (hexUpperDigit j.val) = j.val := by decide
  exact h ⟨v, hv⟩

theorem isQuoteSafe_ne_percent {c : Nat} (h : isQuoteSafe c = true) : c ≠ 37 := by
  intro hc
  subst hc
  revert h
  decide

theorem unquoteAux_cons_of_ne (g c : Nat) (tl : Bytes) (hc : c ≠ 37) :
    unquoteAux (g + 1) (c :: tl) = c :: unquoteAux g tl := by
  rw [unquoteAux.eq_def]
  dsimp only
  rw [if_neg hc]

theorem unquoteAux_cons_hex (g h1 h2 : Nat) (tl : Bytes)
    (hh1 : isHexDigit h1 = true) (hh2 : isHexDigit h2 = true) :
    unquoteAux (g + 1) (37 :: h1 :: h2 :: tl) =
      (hexVal h1 * 16 + hexVal h2) :: unquoteAux g tl := by
  rw [unquoteAux.eq_def]
  dsimp only
  rw [if_pos rfl, hh1, hh2]
  rfl

theorem unquoteAux_quote :
    ∀ (x : Bytes) (f : Nat), (∀ b ∈ x, b < 256) → (quoteFromBytes x).length ≤ f →
      unquoteAux f (quoteFromBytes x) = x := by
  intro x
  induction x with
  | nil =>
    intro f _ _
    cases f <;> rfl
  | cons c tl ih =>
    intro f hx hf
    have hc : c < 256 := hx c (by simp)
    have hxtl : ∀ b ∈ tl, b < 256 := fun b hb => hx b (by simp [hb])
    rw [quoteFromBytes] at hf ⊢
    by_cases hsafe : isQuoteSafe c = true
    · rw [if_pos hsafe] at hf ⊢
      simp only [List.length_append, List.length_cons, List.length_nil] at hf
      obtain ⟨g, rfl⟩ := Nat.exists_eq_succ_of_ne_zero (by omega : f ≠ 0)
      rw [List.singleton_append]
      rw [show Nat.succ g = g + 1 from rfl,
        unquoteAux_cons_of_ne g c _ (isQuoteSafe_ne_percent hsafe)]
      rw [ih g hxtl (by omega)]
    · rw [if_neg hsafe] at hf ⊢
      simp only [List.length_append, List.length_cons, List.length_nil] at hf
      obtain ⟨g, rfl⟩ := Nat.exists_eq_succ_of_ne_zero (by omega : f ≠ 0)
      have hhi := hexDigit_facts (v := c / 16) (by omega)
      have hlo := hexDigit_facts (v := c % 16) (by omega)
      rw [show ([37, hexUpperDigit (c / 16), hexUpperDigit (c % 16)] ++ quoteFromBytes tl) =
        37 :: hexUpperDigit (c / 16) :: hexUpperDigit (c % 16) :: quoteFromBytes tl from rfl]
      rw [show Nat.succ g = g + 1 from rfl,
        unquoteAux_cons_hex g _ _ _ hhi.1 hlo.1]
      rw [hhi.2, hlo.2, ih g hxtl (by omega)]
      congr 1
      omega

theorem unquote_quote (x : Bytes) (hx : ∀ b ∈ x, b < 256) :
    unquoteToBytes (quoteFromBytes x) = x :=
  unquoteAux_quote x (quoteFromBytes x).length hx le_rfl

theorem quote_length_ge (x : Bytes) : x.length ≤ (quoteFromBytes x).length := by
  induction x with
  | nil => simp [quoteFromBytes]
  | cons c tl ih =>
    rw [quoteFromBytes]
    by_cases hsafe : isQuoteSafe c = true
    · rw [if_pos hsafe]
      simp only [List.length_append, List.length_cons, List.length_nil]
      omega
    · rw [if_neg hsafe]
      simp only [List.length_append, List.length_cons, List.length_nil]
      omega

theorem chunksAux_congr (n : Nat) (hn : 1 ≤ n) :
    ∀ len f₁ f₂ (l : Bytes), l.length = len → len ≤ f₁ → len ≤ f₂ →
      chunksAux n f₁ l = chunksAux n f₂ l := by
  intro len
  induction len using Nat.strong_induction_on with
  | _ len ih =>
    intro f₁ f₂ l hlen h₁ h₂
    by_cases hl : l = []
    · subst hl
      cases f₁ <;> cases f₂ <;> simp [chunksAux]
    · have hpos : 0 < l.length := List.length_pos.mpr hl
      obtain ⟨a, rfl⟩ := Nat.exists_eq_succ_of_ne_zero (by omega : f₁ ≠ 0)
      obtain ⟨b, rfl⟩ := Nat.exists_eq_succ_of_ne_zero (by omega : f₂ ≠ 0)
      simp only [chunksAux, hl, if_false]
      have hdrop : (l.drop n).length < len := by
        rw [List.length_drop]
        omega
      rw [ih (l.drop n).length hdrop a b (l.drop n) rfl (by rw [List.length_drop]; omega)
        (by rw [List.length_drop]; omega)]

theorem chunks_step (n : Nat) (hn : 1 ≤ n) (l : Bytes) (hl : l ≠ []) :
    chunks n l = l.take n :: chunks n (l.drop n) := by
  unfold chunks
  have hpos : 0 < l.length := List.length_pos.mpr hl
  obtain ⟨a, ha⟩ := Nat.exists_eq_succ_of_ne_zero (by omega : l.length ≠ 0)
  rw [ha]
  rw [chunksAux, if_neg hl]
  congr 1
  exact chunksAux_congr n hn (l.drop n).length a (l.drop n).length (l.drop n) rfl
    (by rw [List.length_drop]; omega) le_rfl

theorem chunks_flatten_aux (n : Nat) (hn : 1 ≤ n) :
    ∀ len (l : Bytes), l.length = len → (chunks n l).flatten = l := by
  intro len
  induction len using Nat.strong_induction_on with
  | _ len ih =>
    intro l hlen
    by_cases hl : l = []
    · subst hl
      rfl
    · rw [chunks_step n hn l hl]
      have hpos : 0 < l.length := List.length_pos.mpr hl
      have hdrop : (l.drop n).length < len := by
        rw [List.length_drop]
        omega
      rw [List.flatten_cons, ih (l.drop n).length hdrop (l.drop n) rfl]
      exact List.take_append_drop n l

theorem chunks_flatten (n : Nat) (hn : 1 ≤ n) (l : Bytes) :
    (chunks n l).flatten = l :=
  chunks_flatten_aux n hn l.length l rfl

theorem chunks_length_ge_two (n : Nat) (hn : 1 ≤ n) (l : Bytes) (h : n < l.length) :
    2 ≤ (chunks n l).length := by
  have hl : l ≠ [] := by
    intro hh
    subst hh
    simp at h
  rw [chunks_step n hn l hl]
  have hdl : l.drop n ≠ [] := by
    intro hh
    have := congrArg List.length hh
    rw [List.length_drop] at this
    simp at this
    omega
  rw [chunks_step n hn (l.drop n) hdl]
  simp

/-! ## Building the chunked stats query (`FeslClient.build_stats_query_packets`)

`userid` (Python `IntValue = int | str | bytes`) and each element of `keys`
(`StrValue = str | bytes`) are modelled by the bytes `Payload.set` stores for
them (`str(int)` digits / UTF-8 text / raw bytes), so quantifying over
`Bytes` covers all three Python types. -/

/-- The `Payload(TXN='GetStats', owner=…, ownerType=1, periodId=0,
periodPast=0, keys=…)` built by `build_stats_query_packets`. -/
def getStatsPayload (userid : Bytes) (keys : List Bytes) : PayloadData :=
  payloadOfEntries [
    (ascii "TXN", .str (ascii "GetStats")),
    (ascii "owner", .bytes userid),
    (ascii "ownerType", .int 1),
    (ascii "periodId", .int 0),
    (ascii "periodPast", .int 0),
    (ascii "keys", .list (keys.map PValue.bytes))]

/-- Embedding of `FeslClient.build_stats_query_packets`: a payload of at most
`FRAGMENT_SIZE` serialized bytes goes out as one SinglePacketRequest;
otherwise the payload (plus a trailing `\x00`) is base64-encoded,
percent-quoted, split into `FRAGMENT_SIZE` chunks and wrapped into
MultiPacketRequest packets with bodies `size=…`, `data=…`. -/
def buildStatsQueryPackets (tid : Nat) (userid : Bytes) (keys : List Bytes) : List Packet :=
  let payload := getStatsPayload userid keys
  if (payloadToBytes payload).length ≤ FRAGMENT_SIZE then
    [feslBuild (ascii "rank") (payloadToBytes payload) .singlePacketRequest (some tid)]
  else
    let payloadB64 := b64encode (payloadToBytes payload ++ [0])
    let encodedPayloadSize := natToDec payloadB64.length
    let payloadEnc := quoteFromBytes payloadB64
    (chunks FRAGMENT_SIZE payloadEnc).map fun chunk =>
      feslBuild (ascii "rank")
        (payloadToBytes (payloadOfEntries
          [(ascii "size", .str encodedPayloadSize), (ascii "data", .bytes chunk)]))
        .multiPacketRequest (some tid)

theorem setVal_str_fresh {d : PayloadData} {k v : Bytes} (hk : 46 ∉ k)
    (hd : ∀ e ∈ d, 46 ∉ e.1 ∧ e.1 ≠ k) :
    setVal d [] k (.str v) = d ++ [(k, v)] := by
  have h1 : setVal d [] k (.str v) =
      dictAssign (removeKey d (buildPath [k])) (buildPath [k]) v := by
    simp only [setVal, List.nil_append, if_pos]
  have h2 : buildPath [k] = k := rfl
  rw [h1, h2, removeKey_of_ne hk hd, dictAssign_of_fresh v fun e he => (hd e he).2]

/-- The serialized body of one chunk packet: `size=<sz>\ndata=<ch>`. -/
theorem statsChunkBody (sz ch : Bytes) :
    payloadToBytes (payloadOfEntries
      [(ascii "size", .str sz), (ascii "data", .bytes ch)]) =
      (ascii "size" ++ 61 :: sz) ++ 10 :: (ascii "data" ++ 61 :: ch) := by
  have h1 : setVal [] [] (ascii "size") (.str sz) = [(ascii "size", sz)] := by
    rw [setVal_str_fresh (by decide) (by intro e he; cases he)]
    rfl
  have h2 : setVal [(ascii "size", sz)] [] (ascii "data") (.bytes ch) =
      [(ascii "size", sz), (ascii "data", ch)] := by
    rw [setVal_scalar_fresh (by decide)
      (by
        intro e he
        rw [List.mem_singleton] at he
        subst he
        exact ⟨show (46 : Nat) ∉ ascii "size" by decide,
          show ascii "size" ≠ ascii "data" by decide⟩)]
    rfl
  show payloadToBytes (setVal (setVal [] [] (ascii "size") (.str sz)) []
    (ascii "data") (.bytes ch)) = _
  rw [h1, h2]
  rfl

/-- `bytes(payload)` for the stats query payload. -/
def statsQueryBytes (userid : Bytes) (keys : List Bytes) : Bytes :=
  payloadToBytes (getStatsPayload userid keys)

/-- `b64encode(bytes(payload) + b'\x00')` from `build_stats_query_packets`. -/
def statsPayloadB64 (userid : Bytes) (keys : List Bytes) : Bytes :=
  b64encode (statsQueryBytes userid keys ++ [0])

theorem setVal_int_fresh {d : PayloadData} {k : Bytes} (n : Int) (hk : 46 ∉ k)
    (hd : ∀ e ∈ d, 46 ∉ e.1 ∧ e.1 ≠ k) :
    setVal d [] k (.int n) = d ++ [(k, intToDec n)] := by
  have h1 : setVal d [] k (.int n) =
      dictAssign (removeKey d (buildPath [k])) (buildPath [k]) (intToDec n) := by
    simp only [setVal, List.nil_append, if_pos]
  have h2 : buildPath [k] = k := rfl
  rw [h1, h2, removeKey_of_ne hk hd, dictAssign_of_fresh _ fun e he => (hd e he).2]

/-- The `Payload.data` dict built for a one-key stats query, in insertion
order. -/
theorem getStatsPayload_single (u k : Bytes) :
    getStatsPayload u [k] =
      [(ascii "TXN", ascii "GetStats"), (ascii "owner", u), (ascii "ownerType", [49]),
        (ascii "periodId", [48]), (ascii "periodPast", [48]),
        (ascii "keys.0", k), (ascii "keys.[]", [49])] := by
  show payloadOfEntries _ = _
  rw [payloadOfEntries]
  simp only [List.foldl_cons, List.foldl_nil]
  have e1 : setVal [] [] (ascii "TXN") (.str (ascii "GetStats")) =
      [(ascii "TXN", ascii "GetStats")] := by
    rw [setVal_str_fresh (by decide) (by intro e he; cases he)]
    rfl
  rw [e1]
  have e2 : setVal [(ascii "TXN", ascii "GetStats")] [] (ascii "owner") (.bytes u) =
      [(ascii "TXN", ascii "GetStats"), (ascii "owner", u)] := by
    rw [setVal_scalar_fresh (by decide)
      (by
        intro e he
        rcases he with _ | ⟨_, he⟩
        · exact ⟨(by decide : (46 : Nat) ∉ ascii "TXN"),
            (by decide : ascii "TXN" ≠ ascii "owner")⟩
        · cases he)]
    rfl
  rw [e2]
  have e3 : setVal [(ascii "TXN", ascii "GetStats"), (ascii "owner", u)] []
      (ascii "ownerType") (.int 1) =
      [(ascii "TXN", ascii "GetStats"), (ascii "owner", u), (ascii "ownerType", [49])] := by
    rw [setVal_int_fresh 1 (by decide)
      (by
        intro e he
        rcases he with _ | ⟨_, _ | ⟨_, he⟩⟩
        · exact ⟨(by decide : (46 : Nat) ∉ ascii "TXN"),
            (by decide : ascii "TXN" ≠ ascii "ownerType")⟩
        · exact ⟨(by decide : (46 : Nat) ∉ ascii "owner"),
            (by decide : ascii "owner" ≠ ascii "ownerType")⟩
        · cases he)]
    rfl
  rw [e3]
  have e4 : setVal [(ascii "TXN", ascii "GetStats"), (ascii "owner", u),
      (ascii "ownerType", [49])] [] (ascii "periodId") (.int 0) =
      [(ascii "TXN", ascii "GetStats"), (ascii "owner", u), (ascii "ownerType", [49]),
        (ascii "periodId", [48])] := by
    rw [setVal_int_fresh 0 (by decide)
      (by
        intro e he
        rcases he with _ | ⟨_, _ | ⟨_, _ | ⟨_, he⟩⟩⟩
        · exact ⟨(by decide : (46 : Nat) ∉ ascii "TXN"),
            (by decide : ascii "TXN" ≠ ascii "periodId")⟩
        · exact ⟨(by decide : (46 : Nat) ∉ ascii "owner"),
            (by decide : ascii "owner" ≠ ascii "periodId")⟩
        · exact ⟨(by decide : (46 : Nat) ∉ ascii "ownerType"),
            (by decide : ascii "ownerType" ≠ ascii "periodId")⟩
        · cases he)]
    rfl
  rw [e4]
  have e5 : setVal [(ascii "TXN", ascii "GetStats"), (ascii "owner", u),
      (ascii "ownerType", [49]), (ascii "periodId", [48])] [] (ascii "periodPast") (.int 0) =
      [(ascii "TXN", ascii "GetStats"), (ascii "owner", u), (ascii "ownerType", [49]),
        (ascii "periodId", [48]), (ascii "periodPast", [48])] := by
    rw [setVal_int_fresh 0 (by decide)
      (by
        intro e he
        rcases he with _ | ⟨_, _ | ⟨_, _ | ⟨_, _ | ⟨_, he⟩⟩⟩⟩
        · exact ⟨(by decide : (46 : Nat) ∉ ascii "TXN"),
            (by decide : ascii "TXN" ≠ ascii "periodPast")⟩
        · exact ⟨(by decide : (46 : Nat) ∉ ascii "owner"),
            (by decide : ascii "owner" ≠ ascii "periodPast")⟩
        · exact ⟨(by decide : (46 : Nat) ∉ ascii "ownerType"),
            (by decide : ascii "ownerType" ≠ ascii "periodPast")⟩
        · exact ⟨(by decide : (46 : Nat) ∉ ascii "periodId"),
            (by decide : ascii "periodId" ≠ ascii "periodPast")⟩
        · cases he)]
    rfl
  rw [e5]
  simp only [List.map_cons, List.map_nil]
  rw [show setVal [(ascii "TXN", ascii "GetStats"), (ascii "owner", u),
      (ascii "ownerType", [49]), (ascii "periodId", [48]), (ascii "periodPast", [48])] []
      (ascii "keys") (.list [.bytes k]) =
    dictAssign
      (removeKey
        (setItems (removeKey [(ascii "TXN", ascii "GetStats"), (ascii "owner", u),
      (ascii "ownerType", [49]), (ascii "periodId", [48]), (ascii "periodPast", [48])] (buildPath [ascii "keys"]))
          [ascii "keys"] 0 [.bytes k])
        (buildPath [ascii "keys" ++ [46, 91, 93]]))
      (buildPath [ascii "keys" ++ [46, 91, 93]]) (natToDec 1) from rfl]
  have hrm1 : removeKey [(ascii "TXN", ascii "GetStats"), (ascii "owner", u),
      (ascii "ownerType", [49]), (ascii "periodId", [48]), (ascii "periodPast", [48])] (buildPath [ascii "keys"]) =
      [(ascii "TXN", ascii "GetStats"), (ascii "owner", u),
      (ascii "ownerType", [49]), (ascii "periodId", [48]), (ascii "periodPast", [48])] := by
    rw [show buildPath [ascii "keys"] = ascii "keys" from rfl]
    refine removeKey_of_ne (by decide) ?_
    intro e he
    rcases he with _ | ⟨_, _ | ⟨_, _ | ⟨_, _ | ⟨_, _ | ⟨_, he⟩⟩⟩⟩⟩
    · exact ⟨(by decide : (46 : Nat) ∉ ascii "TXN"),
        (by decide : ascii "TXN" ≠ ascii "keys")⟩
    · exact ⟨(by decide : (46 : Nat) ∉ ascii "owner"),
        (by decide : ascii "owner" ≠ ascii "keys")⟩
    · exact ⟨(by decide : (46 : Nat) ∉ ascii "ownerType"),
        (by decide : ascii "ownerType" ≠ ascii "keys")⟩
    · exact ⟨(by decide : (46 : Nat) ∉ ascii "periodId"),
        (by decide : ascii "periodId" ≠ ascii "keys")⟩
    · exact ⟨(by decide : (46 : Nat) ∉ ascii "periodPast"),
        (by decide : ascii "periodPast" ≠ ascii "keys")⟩
    · cases he
  rw [hrm1]
  have hitems : setItems [(ascii "TXN", ascii "GetStats"), (ascii "owner", u),
      (ascii "ownerType", [49]), (ascii "periodId", [48]), (ascii "periodPast", [48])] [ascii "keys"] 0 [.bytes k] =
      [(ascii "TXN", ascii "GetStats"), (ascii "owner", u),
      (ascii "ownerType", [49]), (ascii "periodId", [48]), (ascii "periodPast", [48])] ++ [(ascii "keys.0", k)] := by
    rw [show setItems [(ascii "TXN", ascii "GetStats"), (ascii "owner", u),
      (ascii "ownerType", [49]), (ascii "periodId", [48]), (ascii "periodPast", [48])] [ascii "keys"] 0 [.bytes k] =
      setVal [(ascii "TXN", ascii "GetStats"), (ascii "owner", u),
      (ascii "ownerType", [49]), (ascii "periodId", [48]), (ascii "periodPast", [48])] [ascii "keys"] (natToDec 0) (.bytes k) from rfl]
    rw [show setVal [(ascii "TXN", ascii "GetStats"), (ascii "owner", u),
      (ascii "ownerType", [49]), (ascii "periodId", [48]), (ascii "periodPast", [48])] [ascii "keys"] (natToDec 0) (.bytes k) =
      dictAssign [(ascii "TXN", ascii "GetStats"), (ascii "owner", u),
      (ascii "ownerType", [49]), (ascii "periodId", [48]), (ascii "periodPast", [48])] (buildPath ([ascii "keys"] ++ [natToDec 0])) k from by
        simp only [setVal]
        rw [if_neg (by decide : ¬([ascii "keys"] : List Bytes) = [])]]
    rw [show buildPath ([ascii "keys"] ++ [natToDec 0]) = ascii "keys.0" from rfl]
    refine dictAssign_of_fresh k ?_
    intro e he
    rcases he with _ | ⟨_, _ | ⟨_, _ | ⟨_, _ | ⟨_, _ | ⟨_, he⟩⟩⟩⟩⟩
    · exact (by decide : ascii "TXN" ≠ ascii "keys.0")
    · exact (by decide : ascii "owner" ≠ ascii "keys.0")
    · exact (by decide : ascii "ownerType" ≠ ascii "keys.0")
    · exact (by decide : ascii "periodId" ≠ ascii "keys.0")
    · exact (by decide : ascii "periodPast" ≠ ascii "keys.0")
    · cases he
  rw [hitems]
  rw [show buildPath [ascii "keys" ++ [46, 91, 93]] = ascii "keys.[]" from rfl]
  have hrm2 : removeKey ([(ascii "TXN", ascii "GetStats"), (ascii "owner", u),
      (ascii "ownerType", [49]), (ascii "periodId", [48]), (ascii "periodPast", [48])] ++ [(ascii "keys.0", k)]) (ascii "keys.[]") =
      [(ascii "TXN", ascii "GetStats"), (ascii "owner", u),
      (ascii "ownerType", [49]), (ascii "periodId", [48]), (ascii "periodPast", [48])] ++ [(ascii "keys.0", k)] := by
    refine removeKey_eq_self ?_
    intro e he
    rcases List.mem_append.mp he with he | he
    · rcases he with _ | ⟨_, _ | ⟨_, _ | ⟨_, _ | ⟨_, _ | ⟨_, he⟩⟩⟩⟩⟩
      · exact (by decide :
          (destructPath (ascii "keys.[]")).isPrefixOf (destructPath (ascii "TXN")) = false)
      · exact (by decide :
          (destructPath (ascii "keys.[]")).isPrefixOf (destructPath (ascii "owner")) = false)
      · exact (by decide :
          (destructPath (ascii "keys.[]")).isPrefixOf (destructPath (ascii "ownerType")) = false)
      · exact (by decide :
          (destructPath (ascii "keys.[]")).isPrefixOf (destructPath (ascii "periodId")) = false)
      · exact (by decide :
          (destructPath (ascii "keys.[]")).isPrefixOf (destructPath (ascii "periodPast")) = false)
      · cases he
    · rcases he with _ | ⟨_, he⟩
      · exact (by decide :
          (destructPath (ascii "keys.[]")).isPrefixOf (destructPath (ascii "keys.0")) = false)
      · cases he
  rw [hrm2]
  have hassign : dictAssign ([(ascii "TXN", ascii "GetStats"), (ascii "owner", u),
      (ascii "ownerType", [49]), (ascii "periodId", [48]), (ascii "periodPast", [48])] ++ [(ascii "keys.0", k)]) (ascii "keys.[]") (natToDec 1) =
      ([(ascii "TXN", ascii "GetStats"), (ascii "owner", u),
      (ascii "ownerType", [49]), (ascii "periodId", [48]), (ascii "periodPast", [48])] ++ [(ascii "keys.0", k)]) ++ [(ascii "keys.[]", natToDec 1)] := by
    refine dictAssign_of_fresh _ ?_
    intro e he
    rcases List.mem_append.mp he with he | he
    · rcases he with _ | ⟨_, _ | ⟨_, _ | ⟨_, _ | ⟨_, _ | ⟨_, he⟩⟩⟩⟩⟩
      · exact (by decide : ascii "TXN" ≠ ascii "keys.[]")
      · exact (by decide : ascii "owner" ≠ ascii "keys.[]")
      · exact (by decide : ascii "ownerType" ≠ ascii "keys.[]")
      · exact (by decide : ascii "periodId" ≠ ascii "keys.[]")
      · exact (by decide : ascii "periodPast" ≠ ascii "keys.[]")
      · cases he
    · rcases he with _ | ⟨_, he⟩
      · exact (by decide : ascii "keys.0" ≠ ascii "keys.[]")
      · cases he
  rw [hassign]
  rfl

/-- Closed form of the serialized one-key stats query. -/
theorem statsQueryBytes_single (u k : Bytes) :
    statsQueryBytes u [k] =
      ascii "TXN=GetStats\nowner=" ++
        (u ++ (ascii "\nownerType=1\nperiodId=0\nperiodPast=0\nkeys.0=" ++
          (k ++ ascii "\nkeys.[]=1"))) := by
  show payloadToBytes (getStatsPayload u [k]) = _
  rw [getStatsPayload_single]
  rfl

/-- C2: a GetStats query whose serialized payload exceeds FRAGMENT_SIZE
(8096) is built as at least two packets, exactly the MultiPacketRequest
(discriminator 0xF0) wrappers of the FRAGMENT_SIZE-chunks of the
percent-quoted base64 payload, all carrying the requested transaction id,
each with body `size=<len(b64)>`, `data=<chunk>`; percent-decoding the
concatenated chunks gives back the base64 string, and base64-decoding it
gives the serialized payload plus a single trailing 0 byte, so dropping
that byte recovers the original request body.  (Hypotheses: the id fits the
3-byte tid field and the payload bytes are genuine byte values.) -/
theorem build_stats_query_packets_fragmentation
    (tid : Nat) (userid : Bytes) (keys : List Bytes)
    (hsize : FRAGMENT_SIZE < (statsQueryBytes userid keys).length)
    (htid : tid < 2 ^ 24)
    (hbytes : ∀ b ∈ statsQueryBytes userid keys, b < 256) :
    2 ≤ (buildStatsQueryPackets tid userid keys).length ∧
    buildStatsQueryPackets tid userid keys =
      (chunks FRAGMENT_SIZE (quoteFromBytes (statsPayloadB64 userid keys))).map (fun chunk =>
        feslBuild (ascii "rank")
          ((ascii "size" ++ 61 :: natToDec (statsPayloadB64 userid keys).length) ++
            10 :: (ascii "data" ++ 61 :: chunk))
          .multiPacketRequest (some tid)) ∧
    (∀ q ∈ buildStatsQueryPackets tid userid keys,
      feslGetTid q = tid ∧ q.header.getD 4 0 = 240) ∧
    unquoteToBytes ((chunks FRAGMENT_SIZE
        (quoteFromBytes (statsPayloadB64 userid keys))).flatten) =
      statsPayloadB64 userid keys ∧
    b64decode (statsPayloadB64 userid keys) = statsQueryBytes userid keys ++ [0] ∧
    (b64decode (statsPayloadB64 userid keys)).dropLast = statsQueryBytes userid keys := by
  have hn : 1 ≤ FRAGMENT_SIZE := by decide
  have hsize' : FRAGMENT_SIZE < (payloadToBytes (getStatsPayload userid keys)).length := hsize
  have hb0 : ∀ b ∈ statsQueryBytes userid keys ++ [0], b < 256 := by
    intro b hb
    rcases List.mem_append.mp hb with h | h
    · exact hbytes b h
    · rw [List.mem_singleton] at h
      omega
  have hb64 : ∀ b ∈ statsPayloadB64 userid keys, b < 256 := b64encode_all_lt _ hb0
  have hlenb64 : (statsQueryBytes userid keys ++ [0]).length ≤
      (statsPayloadB64 userid keys).length := b64encode_length_ge _
  have hlenq : (statsPayloadB64 userid keys).length ≤
      (quoteFromBytes (statsPayloadB64 userid keys)).length := quote_length_ge _
  have hfrag : FRAGMENT_SIZE < (quoteFromBytes (statsPayloadB64 userid keys)).length := by
    simp only [List.length_append, List.length_cons, List.length_nil] at hlenb64
    omega
  have hround : b64decode (statsPayloadB64 userid keys) =
      statsQueryBytes userid keys ++ [0] := b64decode_b64encode _ hb0
  have hpkts : buildStatsQueryPackets tid userid keys =
      (chunks FRAGMENT_SIZE (quoteFromBytes (statsPayloadB64 userid keys))).map (fun chunk =>
        feslBuild (ascii "rank")
          ((ascii "size" ++ 61 :: natToDec (statsPayloadB64 userid keys).length) ++
            10 :: (ascii "data" ++ 61 :: chunk))
          .multiPacketRequest (some tid)) := by
    unfold buildStatsQueryPackets
    rw [if_neg (Nat.not_le.mpr hsize')]
    simp only [statsChunkBody]
    rfl
  refine ⟨?_, hpkts, ?_, ?_, hround, ?_⟩
  · rw [hpkts, List.length_map]
    exact chunks_length_ge_two _ hn _ hfrag
  · intro q hq
    rw [hpkts] at hq
    obtain ⟨chunk, _, rfl⟩ := List.mem_map.mp hq
    constructor
    · exact feslBuild_getTid _ _ _ tid (by decide) htid
    · rw [feslBuild_some_eq _ _ _ _ (by decide)]
      exact (fesl_header_facts (by decide) _ (int2bytes_length _ 3)
        (int2bytes_length _ 4)).2.2.2.2
  · rw [chunks_flatten _ hn]
    exact unquote_quote _ hb64
  · rw [hround]
    simp

theorem all_lt_of_all_decide {l : Bytes}
    (h : l.all (fun c => decide (c < 256)) = true) : ∀ b ∈ l, b < 256 :=
  fun b hb => of_decide_eq_true (List.all_eq_true.mp h b hb)

theorem build_stats_query_packets_fragmentation_witness :
    FRAGMENT_SIZE < (statsQueryBytes [49] [List.replicate 8200 97]).length ∧
      2 ≤ (buildStatsQueryPackets 5 [49] [List.replicate 8200 97]).length :=
  have hsize : FRAGMENT_SIZE < (statsQueryBytes [49] [List.replicate 8200 97]).length := by
    rw [statsQueryBytes_single]
    simp only [List.length_append, List.length_replicate, List.length_cons, List.length_nil]
    have hA : (ascii "TXN=GetStats\nowner=").length = 19 := by decide
    have hB : (ascii "\nownerType=1\nperiodId=0\nperiodPast=0\nkeys.0=").length = 44 := by decide
    have hC : (ascii "\nkeys.[]=1").length = 10 := by decide
    rw [FRAGMENT_SIZE]
    omega
  ⟨hsize,
    (build_stats_query_packets_fragmentation 5 [49] [List.replicate 8200 97] hsize
      (by norm_num)
      (by
        intro b hb
        rw [statsQueryBytes_single] at hb
        rcases List.mem_append.mp hb with h | h
        · exact all_lt_of_all_decide (by decide) b h
        rcases List.mem_append.mp h with h | h
        · rw [List.mem_singleton] at h
          omega
        rcases List.mem_append.mp h with h | h
        · exact all_lt_of_all_decide (by decide) b h
        rcases List.mem_append.mp h with h | h
        · have := List.eq_of_mem_replicate h
          omega
        · exact all_lt_of_all_decide (by decide) b h)).1⟩

/-! ## Reading payloads out of packets, response processing (client.py)

Python `str` values are embedded as their UTF-8 bytes throughout, so
`bytes.decode` is the identity in this model (decode failures on invalid
UTF-8 are not modelled; every input in the theorems below is ASCII). -/

/-- Modelled from the spec: `Packet.get_payload()` — called throughout
`client.py` but absent from the `packet.py` revision in src — parses the
packet data (body without the trailing `\x00`) into a `Payload`, i.e.
`Payload.from_bytes(self.get_data())` (no parse map). -/
def getPayload (p : Packet) : PayloadData := fromBytes (getData p)

/-- Python `str.strip('\x22')`: remove double-quote characters from both
ends. -/
def stripQuotes (b : Bytes) : Bytes :=
  ((b.dropWhile fun c => c == 34).reverse.dropWhile fun c => c == 34).reverse

/-- `Payload.unquote`: `urllib.parse.unquote(quoted.strip('\x22'))`. -/
def payloadUnquote (b : Bytes) : Bytes := unquoteToBytes (stripQuotes b)

/-- `Payload.get_str(key)` with the default `None`: the stored bytes,
unquoted. -/
def getStr (d : PayloadData) (k : Bytes) : Option Bytes :=
  (lookupKey d k).map payloadUnquote

/-- `Payload.get_int(key)` with the default `None`: `int(value.decode())`;
`.error ()` embeds the `ValueError` that `int()` raises on non-numeric
text. -/
def getIntRes (d : PayloadData) (k : Bytes) : Except Unit (Option Int) :=
  match lookupKey d k with
  | none => .ok none
  | some v =>
    match pyInt v with
    | some n => .ok (some n)
    | none => .error ()

/-- The exceptions `FeslClient.process_response_packet` can raise, plus the
value errors that bubble out of it. -/
inductive FeslError where
  | parameterError
  | playerNotFound
  | searchError
  | recordNotFound
  | generic (message : Option Bytes) (code : Int)
  | invalidResponse
  | unknownTransmissionType
  | valueError
  | attributeError
  | typeError
deriving Repr, DecidableEq

/-- Embedding of `FeslClient.process_response_packet`.  `.ok (data, last)`
is the `(bytes, bool)` return; every `raise` is an `.error`.
`unknownTransmissionType` embeds the raise inside
`packet.get_transmission_type()`, `valueError` the `int()` failure inside
`payload.get_int('errorCode')`, `attributeError` the
`None.startswith` failure when `errorCode=5000` comes without a `TXN`, and
`typeError` the `unquote_to_bytes(None)` failure when a multi-packet
response carries no `data` value.  (A malformed base64 `data` chunk would
raise `binascii.Error` in Python; `b64decode` here is total and no theorem
exercises that case.) -/
def processResponsePacket (p : Packet) : Except FeslError (Bytes × Bool) :=
  match feslGetTransmissionType p with
  | none => .error .unknownTransmissionType
  | some tt =>
    match getIntRes (getPayload p) (ascii "errorCode") with
    | .error _ => .error .valueError
    | .ok (some ec) =>
      let method := getStr (getPayload p) (ascii "TXN")
      let errorMessage := getStr (getPayload p) (ascii "localizedMessage")
      if ec = 21 then .error .parameterError
      else if ec = 101 ∧ method = some (ascii "NuLookupUserInfo") then .error .playerNotFound
      else if ec = 101 ∧ method = some (ascii "NuSearchOwners") then .error .searchError
      else if ec = 104 ∧ method = some (ascii "NuSearchOwners") then .error .searchError
      else if ec = 223 ∧ method = some (ascii "SearchOwners") then .error .searchError
      else if ec = 5000 then
        match method with
        | none => .error .attributeError
        | some m =>
          if (ascii "GetRecord").isPrefixOf m then .error .recordNotFound
          else .error (.generic errorMessage ec)
      else .error (.generic errorMessage ec)
    | .ok none =>
      if tt ≠ .singlePacketResponse ∧ tt ≠ .multiPacketResponse then
        .error .invalidResponse
      else if tt = .multiPacketResponse then
        match lookupKey (getPayload p) (ascii "data") with
        | none => .error .typeError
        | some d =>
          let data := b64decode (unquoteToBytes d)
          if data.getLast? = some 0 then .ok (data.dropLast, true)
          else .ok (data, false)
      else .ok (p.body, true)

/-! ## The auto-respond check (`FeslClient.is_auto_respond_packet`)

`packet.get_payload().get('TXN')` yields `Optional[bytes]`; the code then
compares it with the `str` literals `'MemCheck'` and `'Ping'`.  `PyVal` and
`pyEq` embed Python equality across those types: `bytes == str` is `False`
in Python 3 regardless of content, and `None == str` is `False`. -/

inductive PyVal where
  | pybytes (b : Bytes)
  | pystr (s : Bytes)
  | pynone
deriving Repr

/-- Python `==` on `bytes | str | None`: cross-type comparisons are always
`False`. -/
def pyEq : PyVal → PyVal → Bool
  | .pybytes a, .pybytes b => a == b
  | .pystr a, .pystr b => a == b
  | .pynone, .pynone => true
  | _, _ => false

inductive AutoResponder where
  | memcheck
  | ping
deriving Repr, DecidableEq

/-- Embedding of `FeslClient.is_auto_respond_packet`: look up the payload's
`TXN` value (bytes, or `None`) and compare it with the `str` literals
`'MemCheck'` / `'Ping'` using Python equality. -/
def feslIsAutoRespond (p : Packet) : Bool × Option AutoResponder :=
  let txn : PyVal := match lookupKey (getPayload p) (ascii "TXN") with
    | some v => .pybytes v
    | none => .pynone
  if pyEq txn (.pystr (ascii "MemCheck")) then (true, some .memcheck)
  else if pyEq txn (.pystr (ascii "Ping")) then (true, some .ping)
  else (false, none)

/-- Embedding of `FeslClient.build_memcheck_packet`: an `fsys`
SinglePacketResponse (0x80) around `Payload(TXN='MemCheck', result=None)`,
i.e. body data `TXN=MemCheck\nresult=`. -/
def buildMemcheckPacket : Packet :=
  feslBuild (ascii "fsys")
    (payloadToBytes (payloadOfEntries
      [(ascii "TXN", .str (ascii "MemCheck")), (ascii "result", .null)]))
    .singlePacketResponse none

/-! ### Claim C7 -/

/-- C7 (refuted): `is_auto_respond_packet` compares the `bytes` value of
`TXN` against `str` literals, which is always `False` in Python 3, so it
answers "not auto-respond" for every packet — even for a genuine server
MemCheck prompt whose payload provably carries `TXN=MemCheck`.
Consequently the read loop built on it sends zero MemCheck replies on any
stream: the claimed "exactly one reply" behaviour never happens. -/
theorem memcheck_auto_respond_broken :
    (∀ p : Packet, feslIsAutoRespond p = (false, none)) ∧
    lookupKey
      (getPayload (feslBuild (ascii "fsys") (ascii "TXN=MemCheck")
        FeslTT.singlePacketRequest none))
      (ascii "TXN") = some (ascii "MemCheck") ∧
    (feslIsAutoRespond (feslBuild (ascii "fsys") (ascii "TXN=MemCheck")
        FeslTT.singlePacketRequest none)).1 = false ∧
    (∀ (stream : List Packet) (tid : Int),
      (wrappedRead
        (fun p => if (feslIsAutoRespond p).1 then some buildMemcheckPacket else none)
        (fun p => (feslGetTid p : Int)) tid stream).1 = []) := by
  have hall : ∀ p : Packet, feslIsAutoRespond p = (false, none) := by
    intro p
    unfold feslIsAutoRespond
    cases lookupKey (getPayload p) (ascii "TXN") <;> rfl
  refine ⟨hall, by decide, by rw [hall], ?_⟩
  intro stream tid
  induction stream with
  | nil => rfl
  | cons p rest ih =>
    rw [wrappedRead]
    rw [hall p]
    simp only [Bool.false_eq_true, if_false]
    by_cases h : (feslGetTid p : Int) < tid
    · rw [if_pos h]
      exact ih
    · rw [if_neg h]

/-! ### Claim C6 -/

/-- C6: for a response packet with a known discriminator whose payload
carries `errorCode=<n>` (numeric) and a clean `TXN=<name>` (no quotes or
percent escapes), `process_response_packet` raises exactly the error the
taxonomy mandates: 21 → ParameterError; 101 + NuLookupUserInfo →
PlayerNotFound; 101/104 + NuSearchOwners → SearchError; 223 + SearchOwners
→ SearchError; 5000 + a TXN starting with GetRecord → RecordNotFound; any
other code → the generic Error carrying the localized message and the
code. -/
theorem process_response_packet_taxonomy (p : Packet) (tt : FeslTT) (v name : Bytes)
    (n : Int)
    (hdisc : feslGetTransmissionType p = some tt)
    (hec : lookupKey (getPayload p) (ascii "errorCode") = some v)
    (hn : pyInt v = some n)
    (htxn : lookupKey (getPayload p) (ascii "TXN") = some name)
    (hclean : payloadUnquote name = name) :
    (n = 21 → processResponsePacket p = .error .parameterError) ∧
    (n = 101 → name = ascii "NuLookupUserInfo" →
      processResponsePacket p = .error .playerNotFound) ∧
    ((n = 101 ∨ n = 104) → name = ascii "NuSearchOwners" →
      processResponsePacket p = .error .searchError) ∧
    (n = 223 → name = ascii "SearchOwners" →
      processResponsePacket p = .error .searchError) ∧
    (n = 5000 → (ascii "GetRecord").isPrefixOf name = true →
      processResponsePacket p = .error .recordNotFound) ∧
    (n ≠ 21 → ¬(n = 101 ∧ name = ascii "NuLookupUserInfo") →
      ¬((n = 101 ∨ n = 104) ∧ name = ascii "NuSearchOwners") →
      ¬(n = 223 ∧ name = ascii "SearchOwners") →
      ¬(n = 5000 ∧ (ascii "GetRecord").isPrefixOf name = true) →
      processResponsePacket p =
        .error (.generic (getStr (getPayload p) (ascii "localizedMessage")) n)) := by
  have hbase : processResponsePacket p =
      (let method := getStr (getPayload p) (ascii "TXN")
       let errorMessage := getStr (getPayload p) (ascii "localizedMessage")
       if n = 21 then .error .parameterError
       else if n = 101 ∧ method = some (ascii "NuLookupUserInfo") then .error .playerNotFound
       else if n = 101 ∧ method = some (ascii "NuSearchOwners") then .error .searchError
       else if n = 104 ∧ method = some (ascii "NuSearchOwners") then .error .searchError
       else if n = 223 ∧ method = some (ascii "SearchOwners") then .error .searchError
       else if n = 5000 then
         match method with
         | none => .error .attributeError
         | some m =>
           if (ascii "GetRecord").isPrefixOf m then .error .recordNotFound
           else .error (.generic errorMessage n)
       else .error (.generic errorMessage n)) := by
    unfold processResponsePacket
    rw [hdisc]
    rw [show getIntRes (getPayload p) (ascii "errorCode") = .ok (some n) from by
      unfold getIntRes
      rw [hec]
      dsimp only
      rw [hn]]
  have hmethod : getStr (getPayload p) (ascii "TXN") = some name := by
    unfold getStr
    rw [htxn, Option.map_some', hclean]
  rw [hbase]
  dsimp only
  rw [hmethod]
  refine ⟨?_, ?_, ?_, ?_, ?_, ?_⟩
  · intro h1
    rw [if_pos h1]
  · rintro rfl rfl
    rw [if_neg (by norm_num), if_pos ⟨rfl, rfl⟩]
  · rintro (rfl | rfl) rfl
    · rw [if_neg (by norm_num),
        if_neg (by
          rintro ⟨-, h⟩
          rw [Option.some_inj] at h
          exact absurd h (by decide)),
        if_pos ⟨rfl, rfl⟩]
    · rw [if_neg (by norm_num), if_neg (by rintro ⟨h, -⟩; norm_num at h),
        if_neg (by rintro ⟨h, -⟩; norm_num at h), if_pos ⟨rfl, rfl⟩]
  · rintro rfl rfl
    rw [if_neg (by norm_num), if_neg (by rintro ⟨h, -⟩; norm_num at h),
      if_neg (by rintro ⟨h, -⟩; norm_num at h),
      if_neg (by rintro ⟨h, -⟩; norm_num at h), if_pos ⟨rfl, rfl⟩]
  · rintro rfl hpre
    rw [if_neg (by norm_num), if_neg (by rintro ⟨h, -⟩; norm_num at h),
      if_neg (by rintro ⟨h, -⟩; norm_num at h),
      if_neg (by rintro ⟨h, -⟩; norm_num at h),
      if_neg (by rintro ⟨h, -⟩; norm_num at h),
      if_pos rfl]
    dsimp only
    rw [if_pos hpre]
  · intro h21 h101a h101b h223 h5000
    rw [if_neg h21,
      if_neg (by
        rintro ⟨hhn, hname⟩
        rw [Option.some_inj] at hname
        exact h101a ⟨hhn, hname⟩),
      if_neg (by
        rintro ⟨hhn, hname⟩
        rw [Option.some_inj] at hname
        exact h101b ⟨Or.inl hhn, hname⟩),
      if_neg (by
        rintro ⟨hhn, hname⟩
        rw [Option.some_inj] at hname
        exact h101b ⟨Or.inr hhn, hname⟩),
      if_neg (by
        rintro ⟨hhn, hname⟩
        rw [Option.some_inj] at hname
        exact h223 ⟨hhn, hname⟩)]
    by_cases h5 : n = 5000
    · rw [if_pos h5]
      dsimp only
      rw [if_neg (by
        intro hpre
        exact h5000 ⟨h5, hpre⟩)]
    · rw [if_neg h5]

theorem process_response_packet_taxonomy_witness :
    processResponsePacket
      (feslBuild (ascii "acct") (ascii "TXN=NuLookupUserInfo\nerrorCode=101")
        FeslTT.singlePacketResponse (some 1)) = .error .playerNotFound :=
  ((process_response_packet_taxonomy
    (feslBuild (ascii "acct") (ascii "TXN=NuLookupUserInfo\nerrorCode=101")
      FeslTT.singlePacketResponse (some 1))
    FeslTT.singlePacketResponse (ascii "101") (ascii "NuLookupUserInfo") 101
    (by decide) (by decide) (by decide) (by decide) (by decide)).2.1) rfl rfl

/-! ## Payload struct extraction (`get_struct` and friends, payload.py)

These embed the path-grouping machinery behind the typed struct getters.
All getters here are invoked without a parse map (as the claims use them),
so `Payload.parse` is the identity on the stored bytes and leaves are kept
raw. -/

/-- `'[]'` (`StructLengthIndicator.list`). -/
def listInd : Bytes := [91, 93]

/-- The two-byte map length indicator (`StructLengthIndicator.map`,
open/close brace). -/
def mapInd : Bytes := [123, 125]

/-- Append an item to the group with key `gp`, or open a new group at the
end (Python dict insertion semantics inside `group_by_path`). -/
def assocAppend (groups : List (Bytes × PayloadData)) (gp : Bytes) (e : Bytes × Bytes) :
    List (Bytes × PayloadData) :=
  match groups with
  | [] => [(gp, [e])]
  | g :: tl => if g.1 = gp then (g.1, g.2 ++ [e]) :: tl else g :: assocAppend tl gp e

/-- `Payload.group_by_path`: bucket the items under `path` by the path
extended with one further component. -/
def groupByPath (data : PayloadData) (path : Bytes) : List (Bytes × PayloadData) :=
  let keys := destructPath path
  (filterByPath data path).foldl
    (fun groups e =>
      assocAppend groups (buildPath ((destructPath e.1).take (keys.length + 1))) e)
    []

/-- `Payload.has_values_at_path`. -/
def hasValuesAtPath (data : PayloadData) (path : Bytes) : Bool :=
  !(groupByPath data path).isEmpty

inductive StructType where
  | struct
  | list
  | map
deriving Repr, DecidableEq

/-- `Payload.determine_struct_type`: look for the list/map length indicator
among the group paths. -/
def determineStructType (groups : List (Bytes × PayloadData)) (path : Bytes) : StructType :=
  if groups.any (fun g => g.1 == path ++ 46 :: listInd) then .list
  else if groups.any (fun g => g.1 == path ++ 46 :: mapInd) then .map
  else .struct

/-- A parsed struct node: raw leaf bytes, nested struct/map (association
list), or list. -/
inductive PNode where
  | value (b : Bytes)
  | struct (entries : List (Bytes × PNode))
  | list (items : List PNode)

/-- The raises reachable from the struct getters: `Error('… is not a
struct')`, `Error('… missing an item …')`, `ParameterError` from
`struct_to_list`/`struct_to_map`, the two inconsistency `Error`s, the
`ValueError`/`AttributeError` that `get_struct_length` can hit, and a fuel
marker (unreachable for the fuel used below). -/
inductive StructError where
  | notAStruct
  | missingItem
  | notAListStruct
  | notAMapStruct
  | inconsistentList
  | inconsistentMap
  | valueError
  | attributeError
  | fuelOut
deriving Repr, DecidableEq

def lookupNode : List (Bytes × PNode) → Bytes → Option PNode
  | [], _ => none
  | e :: tl, k => if e.1 = k then some e.2 else lookupNode tl k

def containsKey (s : List (Bytes × PNode)) (k : Bytes) : Bool :=
  s.any fun e => e.1 == k

/-- `Payload.get_struct_length`: `int(data.get(indicator, b'-1'))`.
`valueError` embeds the `int()` raise, `attributeError` the `.decode()`
call on a non-bytes node. -/
def structLength (s : List (Bytes × PNode)) (ind : Bytes) : Except StructError Int :=
  match lookupNode s ind with
  | none => .ok (-1)
  | some (.value v) =>
    match pyInt v with
    | some n => .ok n
    | none => .error .valueError
  | some _ => .error .attributeError

/-- The `for index in range(length)` collection loop of `struct_to_list`. -/
def collectIndices (s : List (Bytes × PNode)) : Nat → Nat → Except StructError (List PNode)
  | 0, _ => .ok []
  | n + 1, i =>
    match lookupNode s (natToDec i) with
    | none => .error .inconsistentList
    | some v =>
      match collectIndices s n (i + 1) with
      | .ok rest => .ok (v :: rest)
      | .error e => .error e

/-- `Payload.struct_to_list`. -/
def structToList (s : List (Bytes × PNode)) : Except StructError (List PNode) :=
  match structLength s listInd with
  | .error e => .error e
  | .ok len =>
    if len = -1 then .error .notAListStruct
    else collectIndices s len.toNat 0

/-- Python `str.strip` over the two brace characters: remove braces from
both ends (`strip_map_key`). -/
def stripBraces (b : Bytes) : Bytes :=
  ((b.dropWhile fun c => c == 123 || c == 125).reverse.dropWhile
    fun c => c == 123 || c == 125).reverse

/-- `Payload.struct_to_map`. -/
def structToMap (s : List (Bytes × PNode)) : Except StructError (List (Bytes × PNode)) :=
  match structLength s mapInd with
  | .error e => .error e
  | .ok len =>
    if len = -1 then .error .notAMapStruct
    else if (s.length : Int) ≠ len + 1 then .error .inconsistentMap
    else .ok (s.filterMap fun e => if e.1 = mapInd then none else some (stripBraces e.1, e.2))

/-- The per-group loop of `Payload.get_struct`; `recurse` is the recursive
`get_struct` call on the extended group path. -/
def getStructGroups (recurse : Bytes → Except StructError (List (Bytes × PNode)))
    (path : Bytes) (keys : List Bytes) :
    List (Bytes × PayloadData) → Except StructError (List (Bytes × PNode))
  | [] => .ok []
  | (gp, group) :: tl =>
    let gkeys := destructPath gp
    if gkeys = [path] then .error .notAStruct
    else
      let targetKey := buildPath (gkeys.drop keys.length)
      if 1 < group.length then
        match recurse gp with
        | .error e => .error e
        | .ok s =>
          let conv : Except StructError PNode :=
            if containsKey s listInd then
              match structToList s with
              | .ok l => .ok (.list l)
              | .error e => .error e
            else if containsKey s mapInd then
              match structToMap s with
              | .ok m => .ok (.struct m)
              | .error e => .error e
            else .ok (.struct s)
          match conv with
          | .error e => .error e
          | .ok node =>
            match getStructGroups recurse path keys tl with
            | .ok rest => .ok ((targetKey, node) :: rest)
            | .error e => .error e
      else
        match group with
        | [(_, iv)] =>
          match getStructGroups recurse path keys tl with
          | .ok rest => .ok ((targetKey, .value iv) :: rest)
          | .error e => .error e
        | _ => .error .missingItem

/-- Fuel-driven `Payload.get_struct` (no parse map: leaves stay raw).  Each
recursion level extends the path by one component, so any fuel beyond the
total component count of the data suffices. -/
def getStructAux : Nat → PayloadData → Bytes → Except StructError (List (Bytes × PNode))
  | 0, _, _ => .error .fuelOut
  | fuel + 1, data, path =>
    let keys := destructPath path
    let groups := groupByPath data path
    getStructGroups (fun gp => getStructAux fuel data gp) path keys groups

/-- Ample fuel: one unit per stored key byte, plus slack. -/
def structFuel (data : PayloadData) : Nat :=
  data.foldl (fun a e => a + e.1.length) 2

def getStruct (data : PayloadData) (path : Bytes) :
    Except StructError (List (Bytes × PNode)) :=
  getStructAux (structFuel data) data path

/-! ### The typed getters, with their defaults -/

/-- `Payload.get_str(key, default)`: flat lookup, `None` → default, else
unquote.  (The node stored under a dotted path is invisible to the flat
lookup, so a struct at `key` silently yields the default.) -/
def pyGetStr (d : PayloadData) (k : Bytes) (dflt : Option Bytes) : Option Bytes :=
  match lookupKey d k with
  | none => dflt
  | some v => some (payloadUnquote v)

/-- `Payload.get_int(key, default)`; `.error ()` embeds the `ValueError`
from `int()` on non-numeric bytes. -/
def pyGetInt (d : PayloadData) (k : Bytes) (dflt : Option Int) : Except Unit (Option Int) :=
  match lookupKey d k with
  | none => .ok dflt
  | some v =>
    match pyInt v with
    | some n => .ok (some n)
    | none => .error ()

/-- Modelled from the spec: `get_bool` (absent from the payload.py revision
in src) reads the value like the other scalar getters and parses booleans
as `1`/`YES` → `True`, `0`/`NO` → `False`, raising a decode error
otherwise. -/
def pyGetBool (d : PayloadData) (k : Bytes) (dflt : Option Bool) : Except Unit (Option Bool) :=
  match lookupKey d k with
  | none => .ok dflt
  | some v =>
    if v = [49] ∨ v = ascii "YES" then .ok (some true)
    else if v = [48] ∨ v = ascii "NO" then .ok (some false)
    else .error ()

/-- `Payload.get_list(key, default)` (no parse map). -/
def pyGetList (d : PayloadData) (p : Bytes) (dflt : Option (List PNode)) :
    Except StructError (Option (List PNode)) :=
  if hasValuesAtPath d p then
    match getStruct d p with
    | .error e => .error e
    | .ok s =>
      match structToList s with
      | .ok l => .ok (some l)
      | .error e => .error e
  else .ok dflt

/-- `Payload.get_map(key, default)` (no parse map). -/
def pyGetMap (d : PayloadData) (p : Bytes) (dflt : Option (List (Bytes × PNode))) :
    Except StructError (Option (List (Bytes × PNode))) :=
  if hasValuesAtPath d p then
    match getStruct d p with
    | .error e => .error e
    | .ok s =>
      match structToMap s with
      | .ok m => .ok (some m)
      | .error e => .error e
  else .ok dflt

/-- `Payload.get_dict(key, default)` (no parse map). -/
def pyGetDict (d : PayloadData) (p : Bytes) (dflt : Option (List (Bytes × PNode))) :
    Except StructError (Option (List (Bytes × PNode))) :=
  if hasValuesAtPath d p then
    match getStruct d p with
    | .error e => .error e
    | .ok s => .ok (some s)
  else .ok dflt

/-! ### Claim C8 -/

/-- C8 counterexample: in `Payload.from_bytes(b'a.b=c')` the key `a` holds a
struct (the grouping machinery sees values under the path, and there is no
flat entry), yet `get_str('a', default)` and `get_int('a')` return the
default instead of raising a type-mismatch error — no `TypeMismatch` is
raised anywhere in this revision. -/
theorem typed_getter_shape_counterexample :
    hasValuesAtPath (fromBytes (ascii "a.b=c")) (ascii "a") = true ∧
    lookupKey (fromBytes (ascii "a.b=c")) (ascii "a") = none ∧
    pyGetStr (fromBytes (ascii "a.b=c")) (ascii "a") (some (ascii "dflt")) =
      some (ascii "dflt") ∧
    pyGetInt (fromBytes (ascii "a.b=c")) (ascii "a") none = .ok none :=
  ⟨rfl, rfl, rfl, rfl⟩

/-- C8 (amended): each scalar getter (`get_str`, `get_int`, `get_bool`)
returns the supplied default exactly when the flat lookup misses — in
particular when a struct sits at the key — and each struct getter
(`get_list`, `get_map`, `get_dict`) returns the default when no values
exist under the path; when a scalar sits at a dot-free path, the struct
getters raise `Error('Payload value at … is not a struct')` (not a
`TypeMismatch`, which this revision never raises). -/
theorem payload_typed_getters_amended :
    (∀ (d : PayloadData) (k : Bytes) (dflt : Option Bytes),
      lookupKey d k = none → pyGetStr d k dflt = dflt) ∧
    (∀ (d : PayloadData) (k : Bytes) (dflt : Option Int),
      lookupKey d k = none → pyGetInt d k dflt = .ok dflt) ∧
    (∀ (d : PayloadData) (k : Bytes) (dflt : Option Bool),
      lookupKey d k = none → pyGetBool d k dflt = .ok dflt) ∧
    (∀ (d : PayloadData) (p : Bytes) (dflt : Option (List PNode)),
      hasValuesAtPath d p = false → pyGetList d p dflt = .ok dflt) ∧
    (∀ (d : PayloadData) (p : Bytes) (dflt : Option (List (Bytes × PNode))),
      hasValuesAtPath d p = false → pyGetMap d p dflt = .ok dflt) ∧
    (∀ (d : PayloadData) (p : Bytes) (dflt : Option (List (Bytes × PNode))),
      hasValuesAtPath d p = false → pyGetDict d p dflt = .ok dflt) ∧
    pyGetList (fromBytes (ascii "a=1")) (ascii "a") none = .error .notAStruct ∧
    pyGetMap (fromBytes (ascii "a=1")) (ascii "a") none = .error .notAStruct ∧
    pyGetDict (fromBytes (ascii "a=1")) (ascii "a") none = .error .notAStruct := by
  refine ⟨?_, ?_, ?_, ?_, ?_, ?_, rfl, rfl, rfl⟩
  · intro d k dflt h
    unfold pyGetStr
    rw [h]
  · intro d k dflt h
    unfold pyGetInt
    rw [h]
  · intro d k dflt h
    unfold pyGetBool
    rw [h]
  · intro d p dflt h
    unfold pyGetList
    rw [h]
    rfl
  · intro d p dflt h
    unfold pyGetMap
    rw [h]
    rfl
  · intro d p dflt h
    unfold pyGetDict
    rw [h]
    rfl

theorem payload_typed_getters_amended_witness :
    lookupKey ([(ascii "other", ascii "1")] : PayloadData) (ascii "x") = none ∧
      pyGetStr [(ascii "other", ascii "1")] (ascii "x") (some (ascii "dflt")) =
        some (ascii "dflt") :=
  ⟨rfl, payload_typed_getters_amended.1 [(ascii "other", ascii "1")] (ascii "x")
    (some (ascii "dflt")) rfl⟩

/-! ## Parse maps and the fallback magic key (claim C9)

`Payload.get_parse_map_key` below is translated from src payload.py.  The
parse-map consultation that honours `_fallback_` is part of the newer
`Payload.parse` that src's payload.py predates (src's `parse` knows no
fallback), while src's constants.py already ships parse maps built around
`MagicParseKey.fallback`; that consultation step is therefore modelled from
the spec. -/

/-- The types a parse map can assign to a leaf (`str`/`int`/`float`/`bool`,
plus the no-op `bytes` target used by the Dogtags map). -/
inductive PTarget where
  | tstr
  | tint
  | tfloat
  | tbool
  | tbytes
deriving Repr, DecidableEq

/-- A parsed leaf value.  Floats are carried as their validated source
text; no claim concerns float arithmetic. -/
inductive ParsedValue where
  | raw (b : Bytes)
  | pstr (s : Bytes)
  | pint (n : Int)
  | pfloat (text : Bytes)
  | pbool (b : Bool)
deriving Repr, DecidableEq

/-- Acceptance of Python `float(str)` on plain decimal/scientific notation
(optional sign, digits with at most one dot, optional signed exponent;
`inf`/`nan` and underscore separators are not modelled — nothing here
exercises them). -/
def mantissaValid (b : Bytes) : Bool :=
  (b.any isDecDigit) && b.all (fun c => isDecDigit c || c == 46) &&
    decide (b.count 46 ≤ 1)

def exponentValid (b : Bytes) : Bool :=
  match b with
  | [] => false
  | c :: tl =>
    let d := if c = 43 ∨ c = 45 then tl else b
    !d.isEmpty && d.all isDecDigit

def floatValid (b : Bytes) : Bool :=
  let s := match b with
    | c :: tl => if c = 43 ∨ c = 45 then tl else b
    | [] => []
  if s.any (fun c => c == 101 || c == 69) then
    mantissaValid (s.takeWhile fun c => !(c == 101 || c == 69)) &&
      exponentValid ((s.dropWhile fun c => !(c == 101 || c == 69)).drop 1)
  else mantissaValid s

abbrev ParseMap := List (Bytes × PTarget)

def lookupTarget : ParseMap → Bytes → Option PTarget
  | [], _ => none
  | e :: tl, k => if e.1 = k then some e.2 else lookupTarget tl k

/-- `Payload.get_parse_map_key` (src): list entries other than the length
indicator look up under the magic index key; map entries other than the
length indicator look up under their brace-stripped key. -/
def getParseMapKey (key : Bytes) (st : StructType) : Bytes :=
  if st = .list ∧ key ≠ listInd then ascii "_index_"
  else if st = .map ∧ key ≠ mapInd then stripBraces key
  else key

/-- Modelled from the spec: the newer `Payload.parse` consults the parse
map under the normalized key; for a map entry the `_map_` magic key is
consulted next (it "matches any map value", the no-op override that keeps
`_fallback_` from applying to map entries, as in the shipped Dogtags map);
a key still unmapped falls back to the `_fallback_` entry when present,
and only a miss on all of these leaves the value raw. -/
def chooseParseTarget (pm : Option ParseMap) (key : Bytes) (st : StructType) :
    Option PTarget :=
  match pm with
  | none => none
  | some m =>
    match lookupTarget m (getParseMapKey key st) with
    | some t => some t
    | none =>
      match if st = .map ∧ key ≠ mapInd then lookupTarget m (ascii "_map_") else none with
      | some t => some t
      | none => lookupTarget m (ascii "_fallback_")

/-- Apply a parse target to leaf bytes; `.error ()` embeds the decode
failure the spec mandates for unparsable values. -/
def applyTarget : PTarget → Bytes → Except Unit ParsedValue
  | .tstr, v => .ok (.pstr (payloadUnquote v))
  | .tint, v =>
    match pyInt v with
    | some n => .ok (.pint n)
    | none => .error ()
  | .tfloat, v => if floatValid v then .ok (.pfloat v) else .error ()
  | .tbool, v =>
    if v = [49] ∨ v = ascii "YES" then .ok (.pbool true)
    else if v = [48] ∨ v = ascii "NO" then .ok (.pbool false)
    else .error ()
  | .tbytes, v => .ok (.raw v)

/-- Modelled from the spec: the newer `Payload.parse` — raw bytes without a
parse map, otherwise the chosen target applied to the value. -/
def parseLeaf (pm : Option ParseMap) (key : Bytes) (st : StructType) (v : Bytes) :
    Except Unit ParsedValue :=
  match chooseParseTarget pm key st with
  | none => .ok (.raw v)
  | some t => applyTarget t v

/-! ### Claim C9 -/

/-- C9: whenever the parse map carries a `_fallback_` entry and the leaf's
normalized key has no entry of its own — including no `_map_` entry when
the leaf is a map value — parsing applies exactly the fallback target, so
unknown response keys are converted to the default type rather than
returned as raw bytes (the second-to-last conjunct: an unmapped `name`
leaf under a str fallback comes back as a parsed string).  The last
conjunct checks the `_map_` override the spec pairs with this rule: in a
Dogtags-style map with `_map_: bytes`, a map entry bypasses `_fallback_`
and stays raw. -/
theorem parse_fallback_applies (m : ParseMap) (tgt : PTarget)
    (key v : Bytes) (st : StructType)
    (hfb : lookupTarget m (ascii "_fallback_") = some tgt)
    (hmiss : lookupTarget m (getParseMapKey key st) = none)
    (hmap : st = .map → lookupTarget m (ascii "_map_") = none) :
    chooseParseTarget (some m) key st = some tgt ∧
    parseLeaf (some m) key st v = applyTarget tgt v ∧
    parseLeaf (some [(ascii "userId", .tint), (ascii "_fallback_", .tstr)])
      (ascii "name") .struct (ascii "bob") = .ok (.pstr (ascii "bob")) ∧
    parseLeaf (some [(ascii "TTL", .tint), (ascii "state", .tint),
        (ascii "_map_", .tbytes), (ascii "_fallback_", .tstr)])
      ([123] ++ ascii "99" ++ [125]) .map (ascii "abc") = .ok (.raw (ascii "abc")) := by
  have hnomap : (if st = .map ∧ key ≠ mapInd then lookupTarget m (ascii "_map_")
      else none) = none := by
    by_cases h : st = .map ∧ key ≠ mapInd
    · rw [if_pos h]
      exact hmap h.1
    · rw [if_neg h]
  have hchoose : chooseParseTarget (some m) key st = some tgt := by
    unfold chooseParseTarget
    dsimp only
    rw [hmiss]
    dsimp only
    rw [hnomap]
    exact hfb
  refine ⟨hchoose, ?_, rfl, rfl⟩
  unfold parseLeaf
  rw [hchoose]

theorem parse_fallback_applies_witness :
    lookupTarget [(ascii "userId", .tint), (ascii "_fallback_", .tstr)]
        (ascii "_fallback_") = some .tstr ∧
      chooseParseTarget
        (some [(ascii "userId", .tint), (ascii "_fallback_", .tstr)])
        (ascii "rank") .struct = some .tstr :=
  ⟨rfl,
    (parse_fallback_applies [(ascii "userId", .tint), (ascii "_fallback_", .tstr)]
      .tstr (ascii "rank") (ascii "7") .struct rfl rfl (by decide)).1⟩

end Bfbc
